import Mathlib

/-!
Verification development for the two command-line tools of this repository:
`avm_module_finder.py` (a CSV join over deployment data and the AVM module
index) and `avm_module_parameter_parser.py` (a regular-expression driven
README.md extractor).

Modelling conventions, used throughout:
* Python dictionaries are insertion-ordered association lists (`Dict`);
  assignment to an existing key updates the value in place, assignment to a
  fresh key appends at the end, exactly as CPython dictionaries behave.
* A CSV row is a structure of `Option String` fields: `row.get(col)` can
  yield `None` (missing column) or a present (possibly empty) string, and
  Python truthiness of the result is `pyTruthy`.
* The concrete regular-expression searches of the source are modelled by
  explicit scanning functions over `List Char` which follow Python's
  semantics for the patterns actually used in the source: leftmost match,
  lazy (`.*?`) groups tried shortest first with backtracking, greedy
  negated character classes, `$` matching at the end of the text or just
  before a final newline, and `re.DOTALL` deciding whether a lazy group may
  cross newlines.
* Network and file I/O is modelled by oracle functions passed explicitly:
  an HTTP GET oracle maps a URL to `some body` (status 200) or `none`
  (any other status or a request exception), a filesystem oracle maps a
  path to its content when the file exists.
-/

set_option maxRecDepth 40000

/-! ## Python string and dictionary primitives -/

/-- Characters of a Python string. -/
abbrev Chars := List Char

/-- Python truthiness of a `row.get(...)` / attribute value:
`None` and the empty string are falsy. -/
def pyTruthy : Option String → Bool
  | none => false
  | some s => s != ""

/-- Python `str.isspace` characters, the ones removed by `str.strip()`. -/
def pyIsSpace (c : Char) : Bool :=
  c == ' ' || c == '\t' || c == '\n' || c == '\r' || c == '\x0b' || c == '\x0c'

/-- Python `str.strip()` on a character list. -/
def stripChars (l : Chars) : Chars :=
  ((l.dropWhile pyIsSpace).reverse.dropWhile pyIsSpace).reverse

/-- First `some` produced by `f` along a list (used for backtracking
through lazy-group candidates, and for probing candidate paths). -/
def firstSome {α β : Type} (f : α → Option β) : List α → Option β
  | [] => none
  | a :: rest =>
    match f a with
    | some b => some b
    | none => firstSome f rest

/-- Leftmost occurrence of the literal `pat`: returns the text following
that occurrence, or `none` when `pat` does not occur. -/
def findAfterC (pat : Chars) : Chars → Option Chars
  | [] => if pat.isPrefixOf ([] : Chars) then some [] else none
  | c :: rest =>
    if pat.isPrefixOf (c :: rest) then some ((c :: rest).drop pat.length)
    else findAfterC pat rest

/-- Python `pat in s` (substring containment). -/
def containsSubstr (pat s : String) : Bool :=
  (findAfterC pat.data s.data).isSome

/-- Worker for `splitOnChars`; the fuel argument is an upper bound on the
remaining text length, so the fallback branch is never reached. -/
def splitOnCharsAux (delim : Chars) : Nat → Chars → Chars → List Chars
  | 0, acc, s => [acc.reverse ++ s]
  | Nat.succ n, acc, s =>
    if delim ≠ [] ∧ delim.isPrefixOf s = true then
      acc.reverse :: splitOnCharsAux delim n [] (s.drop delim.length)
    else
      match s with
      | [] => [acc.reverse]
      | c :: rest => splitOnCharsAux delim n (c :: acc) rest

/-- Python `s.split(delim)` / `re.split(literal, s)`: split on leftmost,
non-overlapping occurrences of the (non-empty) literal delimiter. -/
def splitOnChars (delim s : Chars) : List Chars :=
  splitOnCharsAux delim s.length [] s

/-- All ways to split `s` as `group ++ delim ++ rest` where the group does
not cross a newline, ordered by increasing group length.  This enumerates
the candidates of a lazy `(.*?)` group (without `re.DOTALL`) followed by
the literal `delim`, in the order the regex engine tries them. -/
def lazySplitsAux (delim : Chars) : Chars → Chars → List (Chars × Chars)
  | acc, [] => if delim.isPrefixOf ([] : Chars) then [(acc.reverse, [])] else []
  | acc, c :: rest =>
    (if delim.isPrefixOf (c :: rest) then [(acc.reverse, (c :: rest).drop delim.length)] else []) ++
    (if c = '\n' then [] else lazySplitsAux delim (c :: acc) rest)

/-- Lazy-group candidates for `(.*?)delim` without `re.DOTALL`. -/
def lazySplits (delim : Chars) (s : Chars) : List (Chars × Chars) :=
  lazySplitsAux delim [] s

/-- Same as `lazySplitsAux` but the group may cross newlines (`re.DOTALL`). -/
def lazySplitsAllAux (delim : Chars) : Chars → Chars → List (Chars × Chars)
  | acc, [] => if delim.isPrefixOf ([] : Chars) then [(acc.reverse, [])] else []
  | acc, c :: rest =>
    (if delim.isPrefixOf (c :: rest) then [(acc.reverse, (c :: rest).drop delim.length)] else []) ++
    lazySplitsAllAux delim (c :: acc) rest

/-- Lazy-group candidates for `(.*?)delim` with `re.DOTALL`. -/
def lazySplitsAll (delim : Chars) (s : Chars) : List (Chars × Chars) :=
  lazySplitsAllAux delim [] s

/-- `re.search` of `pre(.*?)mid(.*?)post` (no `re.DOTALL`) at the current
position only: both groups are tried shortest-first with backtracking. -/
def searchTwoLazyHere (pre mid post : Chars) (s : Chars) : Option (Chars × Chars) :=
  if pre.isPrefixOf s then
    firstSome
      (fun g1 => ((lazySplits post g1.2).head?).map (fun g2 => (g1.1, g2.1)))
      (lazySplits mid (s.drop pre.length))
  else none

/-- `re.search` of `pre(.*?)mid(.*?)post` (no `re.DOTALL`): leftmost start
position wins, groups are lazy. -/
def searchTwoLazy (pre mid post : Chars) : Chars → Option (Chars × Chars)
  | [] => searchTwoLazyHere pre mid post []
  | c :: rest =>
    match searchTwoLazyHere pre mid post (c :: rest) with
    | some r => some r
    | none => searchTwoLazy pre mid post rest

/-- `re.search` of `pre(.*?)post` (no `re.DOTALL`): leftmost start, lazy group. -/
def searchOneLazy (pre post : Chars) : Chars → Option Chars
  | [] => if pre.isPrefixOf ([] : Chars) then ((lazySplits post ([] : Chars)).head?).map Prod.fst else none
  | c :: rest =>
    match
      (if pre.isPrefixOf (c :: rest) then
        ((lazySplits post ((c :: rest).drop pre.length)).head?).map Prod.fst
      else none) with
    | some g => some g
    | none => searchOneLazy pre post rest

/-- `re.search` of `pre(.*?)post` with `re.DOTALL`: leftmost start, lazy group. -/
def searchOneLazyAll (pre post : Chars) : Chars → Option Chars
  | [] => if pre.isPrefixOf ([] : Chars) then ((lazySplitsAll post ([] : Chars)).head?).map Prod.fst else none
  | c :: rest =>
    match
      (if pre.isPrefixOf (c :: rest) then
        ((lazySplitsAll post ((c :: rest).drop pre.length)).head?).map Prod.fst
      else none) with
    | some g => some g
    | none => searchOneLazyAll pre post rest

/-- Python dict with string keys: insertion-ordered association list. -/
abbrev Dict (α : Type) : Type := List (String × α)

/-- Python `d[k]` / `k in d`: first (and, for dicts built by
`dictInsert`, only) binding of the key. -/
def dictLookup {α : Type} (d : Dict α) (k : String) : Option α :=
  match d with
  | [] => none
  | (k', v) :: rest => if k' = k then some v else dictLookup rest k

/-- Python `d[k] = v`: update in place when the key exists, else append. -/
def dictInsert {α : Type} (d : Dict α) (k : String) (v : α) : Dict α :=
  match d with
  | [] => [(k, v)]
  | (k', v') :: rest => if k' = k then (k', v) :: rest else (k', v') :: dictInsert rest k v

/-- Python `{**a, **b}`: a fresh dict filled with `a`'s entries and then
`b`'s entries, later assignments to the same key overwriting earlier ones. -/
def pyUnion {α : Type} (a b : Dict α) : Dict α :=
  (a ++ b).foldl (fun d p => dictInsert d p.1 p.2) []

/-- Worker for `pyReplace`; the fuel argument is an upper bound on the
remaining text length (each step consumes at least one character). -/
def pyReplaceFuel (pat repl : Chars) : Nat → Chars → Chars
  | 0, s => s
  | Nat.succ _, [] => []
  | Nat.succ n, c :: rest =>
    if pat ≠ [] ∧ pat.isPrefixOf (c :: rest) = true then
      repl ++ pyReplaceFuel pat repl n ((c :: rest).drop pat.length)
    else c :: pyReplaceFuel pat repl n rest

/-- Python `s.replace(pat, repl)` for a non-empty pattern: replace all
leftmost, non-overlapping occurrences. -/
def pyReplace (pat repl s : Chars) : Chars :=
  pyReplaceFuel pat repl s.length s

/-- `os.path.join(a, b)` for the relative paths the source joins. -/
def pyPathJoin (a b : String) : String :=
  if a = "" then b
  else if a.data.getLast? = some '/' then a ++ b
  else a ++ "/" ++ b

/-! ## `avm_module_finder.py` -/

/-- One row of the user-supplied deployment CSV, as read by
`csv.DictReader`: `row.get` of the two relevant columns. -/
structure DepRow where
  ProviderNamespace : Option String
  ResourceType : Option String
deriving DecidableEq

/-- Loop body of `load_deployment_csv` (lines 150-160): rows whose
namespace or resource type is falsy are skipped, others append the
resource type to the namespace's list. -/
def loadStep (dd : Dict (List String)) (row : DepRow) : Dict (List String) :=
  if pyTruthy row.ProviderNamespace && pyTruthy row.ResourceType then
    dictInsert dd (row.ProviderNamespace.getD "")
      ((dictLookup dd (row.ProviderNamespace.getD "")).getD [] ++ [row.ResourceType.getD ""])
  else dd

/-- `load_deployment_csv`: builds the Deployment Index from the parsed rows. -/
def load_deployment_csv (rows : List DepRow) : Dict (List String) :=
  rows.foldl loadStep []

/-- One row of the downloaded AVM modules CSV (the six validated columns). -/
structure AvmRow where
  ProviderNamespace : Option String
  ResourceType : Option String
  ModuleName : Option String
  ModuleStatus : Option String
  RepoURL : Option String
  PublicRegistryReference : Option String
deriving DecidableEq

/-- A matched output row: `row.get(column, '')` for the six output columns. -/
structure MatchedRow where
  ProviderNamespace : String
  ResourceType : String
  ModuleName : String
  ModuleStatus : String
  RepoURL : String
  PublicRegistryReference : String
deriving DecidableEq

/-- The static remap table of `match_and_filter_modules` — empty in the
source ("Add mappings here if needed in the future"). -/
def RESOURCE_TYPE_MAPPINGS : List ((String × String) × String) := []

/-- Lookup in the remap table (`mapping_key in RESOURCE_TYPE_MAPPINGS`). -/
def pairLookup (m : List ((String × String) × String)) (k : String × String) : Option String :=
  match m with
  | [] => none
  | (k', v) :: rest => if k' = k then some v else pairLookup rest k

/-- `direct_match`: `namespace in deployment_data and resource_type in
deployment_data[namespace]`. -/
def directMatch (dd : Dict (List String)) (ns rt : String) : Bool :=
  match dictLookup dd ns with
  | some l => decide (rt ∈ l)
  | none => false

/-- `mapped_match`: the loop over `deployment_data.get(namespace, [])`
consulting `RESOURCE_TYPE_MAPPINGS`. -/
def mappedMatch (dd : Dict (List String)) (ns rt : String) : Bool :=
  ((dictLookup dd ns).getD []).any (fun dt =>
    match pairLookup RESOURCE_TYPE_MAPPINGS (ns, dt) with
    | some mapped => mapped == rt
    | none => false)

/-- `matched_row = {column: row.get(column, '') for column in OUTPUT_COLUMNS}`. -/
def projectAvmRow (row : AvmRow) : MatchedRow :=
  { ProviderNamespace := row.ProviderNamespace.getD ""
    ResourceType := row.ResourceType.getD ""
    ModuleName := row.ModuleName.getD ""
    ModuleStatus := row.ModuleStatus.getD ""
    RepoURL := row.RepoURL.getD ""
    PublicRegistryReference := row.PublicRegistryReference.getD "" }

/-- Loop body of `match_and_filter_modules` (lines 224-256): skip rows
with missing data, decide direct or mapped match, keep only status
`"Available"`. -/
def matchStep (dd : Dict (List String)) (acc : List MatchedRow) (row : AvmRow) : List MatchedRow :=
  if !(pyTruthy row.ProviderNamespace && pyTruthy row.ResourceType && pyTruthy row.ModuleStatus) then
    acc
  else
    if directMatch dd (row.ProviderNamespace.getD "") (row.ResourceType.getD "") ||
       mappedMatch dd (row.ProviderNamespace.getD "") (row.ResourceType.getD "") then
      if row.ModuleStatus.getD "" == "Available" then acc ++ [projectAvmRow row]
      else acc
    else acc

/-- `match_and_filter_modules`: the matched-modules list, in reference CSV
row order. -/
def match_and_filter_modules (rows : List AvmRow) (dd : Dict (List String)) : List MatchedRow :=
  rows.foldl (matchStep dd) []

/-- The decision `match_and_filter_modules` takes for a single row: the
row is appended to the output exactly when this is `true`. -/
def rowEmitted (dd : Dict (List String)) (row : AvmRow) : Bool :=
  pyTruthy row.ProviderNamespace && pyTruthy row.ResourceType && pyTruthy row.ModuleStatus &&
  (directMatch dd (row.ProviderNamespace.getD "") (row.ResourceType.getD "") ||
   mappedMatch dd (row.ProviderNamespace.getD "") (row.ResourceType.getD "")) &&
  (row.ModuleStatus.getD "" == "Available")

/-! ## `avm_module_parameter_parser.py`: section and entry grammar -/

/-- Lazy section-body scan: the group of
`## {section_name}(.*?)(?:^##\s|\Z)` (with `re.DOTALL | re.MULTILINE`)
stops at a line start followed by `##` and a whitespace character, or at
the end of the text.  The boolean tracks whether the current position is a
line start. -/
def sectionTakeAux : Bool → Chars → Chars
  | _, [] => []
  | atLineStart, c :: rest =>
    if atLineStart ∧ (['#', '#'] : Chars).isPrefixOf (c :: rest) = true ∧
        Option.any pyIsSpace (((c :: rest).drop 2).head?) = true then
      []
    else c :: sectionTakeAux (c = '\n') rest

/-- Leftmost occurrence of the heading literal, with the lazy section body
starting right after it (never at a line start, the heading text ends the
line's prefix). -/
def extract_sectionAux (pat : Chars) : Chars → Option Chars
  | [] => if pat.isPrefixOf ([] : Chars) then some (sectionTakeAux false []) else none
  | c :: rest =>
    if pat.isPrefixOf (c :: rest) then some (sectionTakeAux false ((c :: rest).drop pat.length))
    else extract_sectionAux pat rest

/-- `extract_section` (lines 150-164): `re.search` of
`## {section_name}(.*?)(?:^##\s|\Z)` with `re.DOTALL | re.MULTILINE`,
returning the stripped group, or the empty string when absent. -/
def extract_section (content sectionName : String) : String :=
  match extract_sectionAux ("## ".data ++ sectionName.data) content.data with
  | some g => String.mk (stripChars g)
  | none => ""

/-- `extract_hcl_block` (lines 166-180). -/
def extract_hcl_block (text : String) : String :=
  match searchOneLazyAll ("```hcl\n".data) ("```".data) text.data with
  | some g => String.mk (stripChars g)
  | none => ""

/-- The record `parse_input_entry` returns; an absent `default` key is
`none`, and the empty Python dict returned on a failed name match is
`none` at the call site. -/
structure InputEntry where
  name : String
  description : String
  ty : String
  default : Option String
deriving DecidableEq

/-- The lazy scan for `Description: (.*?)(?:Type:|$)` with `re.DOTALL`:
stop before a literal `Type:`, at the end of the text, or just before a
final newline. -/
def descTakeInput : Chars → Chars
  | [] => []
  | c :: rest =>
    if ("Type:".data).isPrefixOf (c :: rest) then []
    else if c = '\n' ∧ rest = [] then []
    else c :: descTakeInput rest

/-- `parse_input_entry` (lines 182-230). -/
def parse_input_entry (entry : String) : Option InputEntry :=
  match searchTwoLazy ("### <a name=\"input_".data) ("\"></a> [".data) ("]".data) entry.data with
  | none => none
  | some nameGroups =>
    let input_name := String.mk (nameGroups.2.filter (fun c => c != '\\'))
    let description :=
      match findAfterC ("Description: ".data) entry.data with
      | some rest => String.mk (stripChars (descTakeInput rest))
      | none => ""
    let type_value0 :=
      match searchOneLazy ("Type: `".data) ("`".data) entry.data with
      | some g => String.mk g
      | none => ""
    let hcl_block := extract_hcl_block entry
    let type_value := if hcl_block != "" then String.mk (stripChars hcl_block.data) else type_value0
    let default_value :=
      match searchOneLazy ("Default: `".data) ("`".data) entry.data with
      | some g => some (String.mk g)
      | none => none
    some { name := input_name, description := description, ty := type_value, default := default_value }

/-- An input entry as stored by `parse_inputs_section`, after
`parsed_entry["required"] = is_required`. -/
structure InputInfo where
  name : String
  description : String
  ty : String
  default : Option String
  required : Bool
deriving DecidableEq

def InputEntry.withRequired (e : InputEntry) (b : Bool) : InputInfo :=
  { name := e.name, description := e.description, ty := e.ty, default := e.default, required := b }

/-- The entry fragments of an inputs section: `re.split` on the anchor
literal, drop the preamble, re-prepend the delimiter to each fragment. -/
def inputFragments (sectionText : String) : List String :=
  ((splitOnChars ("### <a name=\"input_".data) sectionText.data).drop 1).map
    (fun e => String.mk ("### <a name=\"input_".data ++ e))

/-- Loop body of `parse_inputs_section`: entries whose parse produced a
named record are stored under their name with the required flag set,
others are dropped. -/
def inputsStep (is_required : Bool) (result : Dict InputInfo) (entry : String) : Dict InputInfo :=
  match parse_input_entry entry with
  | some pe => dictInsert result pe.name (pe.withRequired is_required)
  | none => result

/-- `parse_inputs_section` (lines 261-284). -/
def parse_inputs_section (sectionText : String) (is_required : Bool) : Dict InputInfo :=
  (inputFragments sectionText).foldl (inputsStep is_required) []

structure OutputEntry where
  name : String
  description : String
deriving DecidableEq

/-- The lazy scan for `Description: (.*?)(?:$)` with `re.DOTALL`. -/
def descTakeOutput : Chars → Chars
  | [] => []
  | c :: rest => if c = '\n' ∧ rest = [] then [] else c :: descTakeOutput rest

/-- `parse_output_entry` (lines 232-259). -/
def parse_output_entry (entry : String) : Option OutputEntry :=
  match searchTwoLazy ("### <a name=\"output_".data) ("\"></a> [".data) ("]".data) entry.data with
  | none => none
  | some nameGroups =>
    let output_name := String.mk (nameGroups.2.filter (fun c => c != '\\'))
    let description :=
      match findAfterC ("Description: ".data) entry.data with
      | some rest => String.mk (stripChars (descTakeOutput rest))
      | none => ""
    some { name := output_name, description := description }

def outputFragments (sectionText : String) : List String :=
  ((splitOnChars ("### <a name=\"output_".data) sectionText.data).drop 1).map
    (fun e => String.mk ("### <a name=\"output_".data ++ e))

/-- Loop body of `parse_outputs_section`. -/
def outputsStep (result : Dict OutputEntry) (entry : String) : Dict OutputEntry :=
  match parse_output_entry entry with
  | some pe => dictInsert result pe.name pe
  | none => result

/-- `parse_outputs_section` (lines 286-307). -/
def parse_outputs_section (sectionText : String) : Dict OutputEntry :=
  (outputFragments sectionText).foldl outputsStep []

/-- One provider entry of `required_providers`. -/
structure Provider where
  source : String
  version : String
deriving DecidableEq

/-- The `terraform` block of `module_requirements`; a `none` /
empty-list field models an absent key. -/
structure TfBlock where
  required_version : Option String
  required_providers : Dict Provider
deriving DecidableEq

/-- `re.search` of `<a name="requirement_([^"]+)"></a>` in a line: leftmost
occurrence whose greedy quote-free group is followed by `"></a>`. -/
def searchReqName : Chars → Option Chars
  | [] => none
  | c :: rest =>
    if ("<a name=\"requirement_".data).isPrefixOf (c :: rest) then
      (let r := (c :: rest).drop ("<a name=\"requirement_".data).length
       let g := r.takeWhile (fun ch => ch != '"')
       if g ≠ [] ∧ ("\"></a>".data).isPrefixOf (r.drop g.length) = true then some g
       else searchReqName rest)
    else searchReqName rest

/-- `re.search` of `\(([^)]+)\)$` on a stripped line: the first `(` whose
greedy run of non-`)` characters is non-empty and closed by a `)` that
ends the line. -/
def searchVersion : Chars → Option Chars
  | [] => none
  | c :: rest =>
    if c = '(' then
      (let g := rest.takeWhile (fun ch => ch != ')')
       if g ≠ [] ∧ rest.drop g.length = [')'] then some g
       else searchVersion rest)
    else searchVersion rest

/-- The name/version capture `parse_requirements_section` performs on one
line (lines 390-404): the substring guards, the anchor search on the raw
line, the trailing-parentheses search on the stripped line, and the final
`strip()` of the version. -/
def lineCaptured (line : String) : Option (String × String) :=
  if containsSubstr "<a name=\"requirement_" line && line.data.contains '(' && line.data.contains ')' then
    match searchReqName line.data with
    | none => none
    | some nameC =>
      match searchVersion (stripChars line.data) with
      | none => none
      | some verC => some (String.mk nameC, String.mk (stripChars verC))
  else none

/-- Loop body of `parse_requirements_section` over the section's lines: a
captured `terraform` requirement overwrites the terraform version, any
other captured name gets a provider entry with the `hashicorp/{name}`
default source, the hard-coded exception `modtm` the source
`azure/modtm`. -/
def reqFold (st : Option String × Dict Provider) (line : String) : Option String × Dict Provider :=
  match lineCaptured line with
  | none => st
  | some p =>
    if p.1 = "terraform" then (some p.2, st.2)
    else
      (st.1, dictInsert st.2 p.1
        { source := if p.1 = "modtm" then "azure/modtm" else "hashicorp/" ++ p.1
          version := p.2 })

/-- The lines of a section, as Python `section.split('\n')`. -/
def pyLines (s : String) : List String :=
  (splitOnChars ("\n".data) s.data).map String.mk

/-- `parse_requirements_section` (lines 366-436): `none` models the empty
dict the source returns when the section is empty or no truthy requirement
was found; the `required_version` / `required_providers` keys are added
only when truthy. -/
def parse_requirements_section (sec : String) : Option TfBlock :=
  if sec = "" then none
  else
    let st := (pyLines sec).foldl reqFold (none, [])
    if pyTruthy st.1 || decide (st.2 ≠ []) then
      some { required_version := if pyTruthy st.1 then st.1 else none
             required_providers := st.2 }
    else none

/-- A submodule entry of the result; `path` is `none` for entries built by
`process_submodules`, which stores no path key. -/
structure SubmoduleDoc where
  name : String
  path : Option String
  description : String
  inputs : Dict InputInfo
  outputs : Dict OutputEntry
deriving DecidableEq

/-- The per-module object of the result; `module_requirements = none` and
`submodules = none` model the conditionally-added keys. -/
structure ModuleDoc where
  name : String
  description : String
  inputs : Dict InputInfo
  outputs : Dict OutputEntry
  module_requirements : Option TfBlock
  submodules : Option (Dict SubmoduleDoc)
deriving DecidableEq

/-- The submodules mapping of a result object, reading an absent
`submodules` key as the empty mapping. -/
def subsOf (d : ModuleDoc) : Dict SubmoduleDoc :=
  (d.submodules).getD []

/-- A filesystem oracle: content of the file at a path, when it exists. -/
abbrev Fs := String → Option String

/-- One iteration of `process_submodules` (lines 451-511) for one
discovered submodule name: probe the three candidate paths, read and parse
the submodule README, and store an entry whose description is the empty
string.  The regex-driven discovery of candidate names from the section
text (`finditer` over `submodule_pattern`) is abstracted as the
caller-supplied name list; everything after discovery follows the source. -/
def processOneSubmodule (fs : Fs) (base_dir : String) (subs : Dict SubmoduleDoc) (name : String) : Dict SubmoduleDoc :=
  let candidates := [pyPathJoin (pyPathJoin (pyPathJoin base_dir "modules") name) "README.md",
                     pyPathJoin (pyPathJoin base_dir name) "README.md",
                     pyPathJoin (pyPathJoin (pyPathJoin base_dir "modules") name) "README.md"]
  match firstSome fs candidates with
  | none => subs
  | some content =>
    let req_inputs_data := parse_inputs_section (extract_section content "Required Inputs") true
    let opt_inputs_data := parse_inputs_section (extract_section content "Optional Inputs") false
    let outputs_data := parse_outputs_section (extract_section content "Outputs")
    dictInsert subs name
      { name := name, path := none, description := ""
        inputs := pyUnion req_inputs_data opt_inputs_data
        outputs := outputs_data }

/-- `ReadmeParser.parse` (lines 309-364), as a function of the README
content and the parser state: the `module_name` computed by the
constructor, the submodules dictionary pre-set by `set_submodules`, and
the filesystem / name-discovery oracles used by `process_submodules` when
a Submodules section is present. -/
def ReadmeParser.parse (fs : Fs) (discoverNames : String → List String)
    (base_dir module_name content : String) (subs0 : Dict SubmoduleDoc) : Dict ModuleDoc :=
  let requirements_section := extract_section content "Requirements"
  let required_inputs_section := extract_section content "Required Inputs"
  let optional_inputs_section := extract_section content "Optional Inputs"
  let outputs_section := extract_section content "Outputs"
  let submodules_section := extract_section content "Submodules"
  let required_inputs := parse_inputs_section required_inputs_section true
  let optional_inputs := parse_inputs_section optional_inputs_section false
  let outputs := parse_outputs_section outputs_section
  let module_requirements := parse_requirements_section requirements_section
  let submodules :=
    if submodules_section != "" then
      (discoverNames submodules_section).foldl (processOneSubmodule fs base_dir) subs0
    else subs0
  let all_inputs := pyUnion required_inputs optional_inputs
  [(module_name,
    { name := module_name, description := ""
      inputs := all_inputs
      outputs := outputs
      module_requirements := module_requirements
      submodules := if submodules ≠ [] then some submodules else none })]

/-- The inputs/outputs pair returned by `parse_readme_directly`. -/
structure ParsedReadme where
  inputs : Dict InputInfo
  outputs : Dict OutputEntry
deriving DecidableEq

/-- `parse_readme_directly` (lines 824-879) applied to the content of an
existing, readable README (the missing-file and read-error branches return
empty mappings and are reached through the fetch oracle's `none`). -/
def parse_readme_directly (content : String) : ParsedReadme :=
  { inputs := pyUnion (parse_inputs_section (extract_section content "Required Inputs") true)
      (parse_inputs_section (extract_section content "Optional Inputs") false)
    outputs := parse_outputs_section (extract_section content "Outputs") }

/-! ## `avm_module_parameter_parser.py`: registry fetcher and main -/

/-- An HTTP GET oracle: `some body` for a status-200 response, `none` for
any other status or a request exception. -/
abbrev Http := String → Option String

/-- The mutable state of a `TerraformRegistryFetcher` (lines 575-588). -/
structure Fetcher where
  namespace_ : String
  name : String
  provider : String
  github_repo : Option String
  source_url : Option String
  repo_branch : Option String
deriving DecidableEq

/-- `TerraformRegistryFetcher.__init__` for an already-split module name. -/
def initFetcher (ns nm pv : String) : Fetcher :=
  { namespace_ := ns, name := nm, provider := pv
    github_repo := none, source_url := none, repo_branch := none }

/-- `_parse_module_name` (lines 590-605): split on `/`, exactly three
parts, otherwise a `ValueError` (modelled as `none`). -/
def parseModuleName (module_name : String) : Option (String × String × String) :=
  match (splitOnChars ("/".data) module_name.data).map String.mk with
  | [a, b, c] => some (a, b, c)
  | _ => none

/-- `_get_registry_api_url` (lines 616-623). -/
def registryApiUrl (st : Fetcher) : String :=
  "https://registry.terraform.io/v1/modules/" ++ st.namespace_ ++ "/" ++ st.name ++ "/" ++ st.provider

/-- A registry API oracle: `none` models a request exception or an error
status (`raise_for_status`), `some src` a successful JSON response whose
`source` field (defaulted to the empty string) is `src`. -/
abbrev RegApi := String → Option String

/-- `fetch_module_source` (lines 625-650). -/
def fetch_module_source (regApi : RegApi) (st : Fetcher) : Option String :=
  match regApi (registryApiUrl st) with
  | none => none
  | some source_url => if source_url = "" then none else some source_url

/-- Match of `github\.com[:/]([^/]+/[^/]+)(?:\.git)?$` at the leftmost
possible position: after `github.com` and a `:` or `/`, the remainder must
be two non-empty `/`-free segments separated by one `/` and reaching the
end of the string; the greedy second segment swallows any `.git` suffix,
which the caller removes with `replace`. -/
def githubPattern1 : Chars → Option Chars
  | [] => none
  | c :: rest =>
    match
      (if ("github.com".data).isPrefixOf (c :: rest) then
        match (c :: rest).drop ("github.com".data).length with
        | [] => none
        | sep :: r =>
          if sep = ':' ∨ sep = '/' then
            (let seg1 := r.takeWhile (fun ch => ch != '/')
             let rest2 := r.drop (seg1.length + 1)
             if seg1 ≠ [] ∧ seg1.length < r.length ∧ rest2.all (fun ch => ch != '/') = true ∧
                 rest2 ≠ [] then
               some (seg1 ++ '/' :: rest2)
             else none)
          else none
      else none) with
    | some g => some g
    | none => githubPattern1 rest

/-- Match of `github\.com/([^/]+/[^/]+)` at the leftmost possible
position: two non-empty `/`-free segments after `github.com/`. -/
def githubPattern2 : Chars → Option Chars
  | [] => none
  | c :: rest =>
    match
      (if ("github.com/".data).isPrefixOf (c :: rest) then
        (let r := (c :: rest).drop ("github.com/".data).length
         let seg1 := r.takeWhile (fun ch => ch != '/')
         if seg1 ≠ [] ∧ seg1.length < r.length then
           (let r2 := r.drop (seg1.length + 1)
            let seg2 := r2.takeWhile (fun ch => ch != '/')
            if seg2 ≠ [] then some (seg1 ++ '/' :: seg2) else none)
         else none)
      else none) with
    | some g => some g
    | none => githubPattern2 rest

/-- `extract_github_repo` (lines 652-680): try the two GitHub URL
patterns in order, then `repo.replace(".git", "")`. -/
def extract_github_repo (source_url : String) : Option String :=
  match githubPattern1 source_url.data with
  | some repo => some (String.mk (pyReplace (".git".data) [] repo))
  | none =>
    match githubPattern2 source_url.data with
    | some repo => some (String.mk (pyReplace (".git".data) [] repo))
    | none => none

/-- The URL loop of `fetch_readme_content`: try each candidate path on the
raw-content host; on the first 200 response, record the branch — inferred
by a substring test of the URL — in `repo_branch` and return. -/
def tryReadmePaths (http : Http) (st : Fetcher) : List String → Fetcher × Option (String × String)
  | [] => (st, none)
  | p :: rest =>
    let url := "https://raw.githubusercontent.com/" ++ p
    match http url with
    | some text =>
      let branch := if containsSubstr "main" url then "main" else "master"
      ({ st with repo_branch := some branch }, some (text, branch))
    | none => tryReadmePaths http st rest

/-- `fetch_readme_content` (lines 682-723): build the fixed
`main`-then-`master` candidate list and try it. -/
def fetch_readme_content (http : Http) (st : Fetcher) (github_repo path : String) :
    Fetcher × Option (String × String) :=
  let readme_paths :=
    if path != "" then
      (let readme_path :=
        if ("README.md".data).isSuffixOf path.data then path else pyPathJoin path "README.md"
       [github_repo ++ "/main/" ++ readme_path, github_repo ++ "/master/" ++ readme_path])
    else
      [github_repo ++ "/main/README.md", github_repo ++ "/master/README.md"]
  tryReadmePaths http st readme_paths

/-- Python `s.strip('/')`. -/
def stripSlashes (l : Chars) : Chars :=
  ((l.dropWhile (fun c => c == '/')).reverse.dropWhile (fun c => c == '/')).reverse

/-- The path cleaning of `fetch_submodule_readme` (lines 786-791): strip
surrounding slashes, then a leading `./`. -/
def cleanSubmodulePath (submodule_path : String) : String :=
  let path1 := String.mk (stripSlashes submodule_path.data)
  if ("./".data).isPrefixOf path1.data then String.mk (path1.data.drop 2) else path1

/-- The filename `fetch_submodule_readme` saves to (lines 803-806). -/
def submoduleReadmeFilename (st : Fetcher) (submodule_name : String) : String :=
  "working/" ++ String.mk (pyReplace ("-".data) ("_".data) st.name.data) ++ "_" ++
    String.mk (pyReplace ("/".data) ("_".data)
      (pyReplace ("-".data) ("_".data) submodule_name.data)) ++ "_README.md"

/-- `fetch_submodule_readme` (lines 770-822): clean the path, fetch via
`fetch_readme_content`, and save the content under a computed filename in
`working/` (the successful file write is modelled by returning the
filename together with the content written to it). -/
def fetch_submodule_readme (http : Http) (st : Fetcher) (submodule_path submodule_name : String) :
    Fetcher × Option (String × String) :=
  match st.github_repo with
  | none => (st, none)
  | some repo =>
    match fetch_readme_content http st repo (cleanSubmodulePath submodule_path) with
    | (st', none) => (st', none)
    | (st', some (readme_content, _)) =>
      (st', some (submoduleReadmeFilename st submodule_name, readme_content))

/-- `fetch_and_save_readme` (lines 725-768): source lookup, repo
extraction (recording `github_repo` and `source_url` on the fetcher),
top-level README fetch, save to `working/{name}_README.md` (modelled as
filename plus content). -/
def fetch_and_save_readme (regApi : RegApi) (http : Http) (st : Fetcher) :
    Fetcher × Option (String × String) :=
  match fetch_module_source regApi st with
  | none => (st, none)
  | some source_url =>
    match extract_github_repo source_url with
    | none => (st, none)
    | some github_repo =>
      let st1 := { st with github_repo := some github_repo, source_url := some source_url }
      match fetch_readme_content http st1 github_repo "" with
      | (st2, none) => (st2, none)
      | (st2, some (readme_content, _)) =>
        let module_filename := String.mk (pyReplace ("-".data) ("_".data) st1.name.data)
        (st2, some ("working/" ++ module_filename ++ "_README.md", readme_content))

/-- A submodule reference discovered in the Modules section (lines
983-1001); its `description` field is always the empty string. -/
structure SubInfo where
  id : String
  name : String
  path : String
  description : String
deriving DecidableEq

/-- Build `submodule_infos` from the `(module_id, name, source_path)`
groups of the `module_pattern` matches, as `main` does: strip each group,
drop a leading `./` from the path, always store an empty description.  The
`re.finditer` discovery itself is abstracted as the given triple list. -/
def submoduleInfosOf (triples : List (String × String × String)) : List SubInfo :=
  triples.map (fun t =>
    let source_path0 := String.mk (stripChars t.2.2.data)
    { id := String.mk (stripChars t.1.data)
      name := String.mk (stripChars t.2.1.data)
      path := if ("./".data).isPrefixOf source_path0.data then String.mk (source_path0.data.drop 2)
              else source_path0
      description := "" })

/-- One iteration of the submodule loop of `main` (lines 1003-1026):
fetch the submodule README, skip the submodule on failure (`continue`),
parse the saved file with `parse_readme_directly`, and store the entry
keyed by submodule name. -/
def subStep (http : Http) (acc : Fetcher × Dict SubmoduleDoc) (info : SubInfo) :
    Fetcher × Dict SubmoduleDoc :=
  match fetch_submodule_readme http acc.1 info.path info.name with
  | (st', none) => (st', acc.2)
  | (st', some (_, content)) =>
    let parsed := parse_readme_directly content
    (st', dictInsert acc.2 info.name
      { name := info.name, path := some info.path, description := info.description
        inputs := parsed.inputs, outputs := parsed.outputs })

/-- The submodule loop of `main` (lines 1003-1026). -/
def processSubInfos (http : Http) (st : Fetcher) (infos : List SubInfo) :
    Fetcher × Dict SubmoduleDoc :=
  infos.foldl (subStep http) (st, [])

/-- Outcome of a registry-mode run of the parser's `main` plus the
`__main__` block: the process exit status and the parsed result that
`to_json` serializes (`none` when `main` returned before producing one). -/
structure RunResult where
  exitCode : Nat
  output : Option (Dict ModuleDoc)
deriving DecidableEq

/-- Registry mode of `main` (lines 881-1087) together with the `__main__`
block.  Every failure of the registry pipeline logs and `return`s from
`main`, `main` itself catches every exception without re-raising, and the
`__main__` block calls `sys.exit` only for `KeyboardInterrupt`, so the
interpreter exits with status 0 on all paths modelled here.  Oracles: the
registry API, HTTP GET, the local filesystem, and the two regex discovery
steps (`module_pattern` triples for the Modules section,
`submodule_pattern` names for a Submodules section). -/
def registryMain (regApi : RegApi) (http : Http) (fs : Fs)
    (discoverModules : String → List (String × String × String))
    (discoverNames : String → List String)
    (script_dir module_name : String) : RunResult :=
  match parseModuleName module_name with
  | none => { exitCode := 0, output := none }
  | some nsv =>
    let st0 := initFetcher nsv.1 nsv.2.1 nsv.2.2
    match fetch_and_save_readme regApi http st0 with
    | (_, none) => { exitCode := 0, output := none }
    | (st1, some (_fname, content)) =>
      let modules_section := extract_section content "Modules"
      let submodule_infos :=
        if modules_section != "" then submoduleInfosOf (discoverModules modules_section) else []
      let stData := processSubInfos http st1 submodule_infos
      let readme_basename := String.mk (pyReplace ("-".data) ("_".data) st1.name.data) ++ "_README.md"
      let mn := String.mk (pyReplace ("_README.md".data) [] readme_basename.data)
      let base_dir := pyPathJoin script_dir "working"
      { exitCode := 0
        output := some (ReadmeParser.parse fs discoverNames base_dir mn content stData.2) }

/-! ## Concrete fixtures used by witnesses and counterexamples -/

/-- The Required Inputs section text of the spec's C2 example. -/
def inputSectionC2 : String :=
  "The following input variables are required:\n\n### <a name=\"input_location\"></a> [location](#input\\_location)\n\nDescription: The region.\n\nType: `string`"

/-- The single entry fragment of `inputSectionC2`. -/
def inputFragmentC2 : String :=
  "### <a name=\"input_location\"></a> [location](#input\\_location)\n\nDescription: The region.\n\nType: `string`"

/-- README content whose required and optional input sections share the
input name `location`. -/
def contentC3 : String :=
  "# mod\n\n## Required Inputs\n\n### <a name=\"input_location\"></a> [location](#input\\_location)\n\nDescription: Req.\n\nType: `string`\n\n## Optional Inputs\n\n### <a name=\"input_location\"></a> [location](#input\\_location)\n\nDescription: Opt.\n\nType: `string`\n\nDefault: `eastus`\n\n## Outputs\n"

/-- A realistic Requirements section with three requirement lines. -/
def reqSectionC4 : String :=
  "The following requirements are needed by this module:\n\n- <a name=\"requirement_terraform\"></a> [terraform](#requirement\\_terraform) (>= 1.9, < 2.0)\n\n- <a name=\"requirement_modtm\"></a> [modtm](#requirement\\_modtm) (~> 0.3)\n\n- <a name=\"requirement_azurerm\"></a> [azurerm](#requirement\\_azurerm) (~> 4.0)"

/-- HTTP oracle for the branch analysis: the top-level README exists only
on `master`, the submodule README exists on both branches with different
bodies. -/
def httpC5 : Http := fun url =>
  if url = "https://raw.githubusercontent.com/Azure/x/master/README.md" then some "TOP"
  else if url = "https://raw.githubusercontent.com/Azure/x/main/modules/m/README.md" then
    some "SUBMAIN"
  else if url = "https://raw.githubusercontent.com/Azure/x/master/modules/m/README.md" then
    some "SUBMASTER"
  else none

/-- Fetcher state after a successful repository extraction for `Azure/x`. -/
def fetcherC5 : Fetcher :=
  { namespace_ := "Azure", name := "x", provider := "azurerm"
    github_repo := some "Azure/x", source_url := none, repo_branch := none }

/-- A registry API oracle that always fails. -/
def regApiFail : RegApi := fun _ => none

/-- An HTTP oracle with no reachable URL. -/
def noHttp : Http := fun _ => none

/-- An empty filesystem oracle. -/
def noFs : Fs := fun _ => none

/-- A Modules-section discovery oracle that finds nothing. -/
def noModules : String → List (String × String × String) := fun _ => []

/-- A Submodules-section discovery oracle that finds nothing. -/
def noNames : String → List String := fun _ => []

/-- HTTP oracle for the submodule-loop analysis: submodules `a` and `c`
have a README on `main`, submodule `b` has none. -/
def httpC7 : Http := fun url =>
  if url = "https://raw.githubusercontent.com/Azure/x/main/modules/a/README.md" then
    some "## Outputs\n"
  else if url = "https://raw.githubusercontent.com/Azure/x/main/modules/c/README.md" then
    some "## Outputs\n"
  else none

/-- Three discovered submodules; the fetch of `b` fails under `httpC7`. -/
def infosC7 : List SubInfo :=
  [⟨"a", "a", "modules/a", ""⟩, ⟨"b", "b", "modules/b", ""⟩, ⟨"c", "c", "modules/c", ""⟩]


/-- The parse result of `contentC3` (no filesystem, no discovery). -/
def resultC3 : Dict ModuleDoc := ReadmeParser.parse noFs noNames "" "m" contentC3 []

/-- The capture a requirements line contributes for a given requirement
name, as a last-writer trigger. -/
def capVer (n : String) (l : String) : Option String :=
  match lineCaptured l with
  | some p => if p.1 = n then some p.2 else none
  | none => none

/-- The provider source the requirements parser assigns to a name. -/
def srcOf (n : String) : String :=
  if n = "modtm" then "azure/modtm" else "hashicorp/" ++ n

/-! ## Lemmas about the dictionary model -/

theorem dictLookup_dictInsert {α : Type} (d : Dict α) (k : String) (v : α) (k' : String) :
    dictLookup (dictInsert d k v) k' = if k = k' then some v else dictLookup d k' := by
  induction d with
  | nil => simp [dictInsert, dictLookup]
  | cons p rest ih =>
    obtain ⟨pk, pv⟩ := p
    by_cases hpk : pk = k
    · subst hpk
      by_cases hk' : pk = k' <;> simp [dictInsert, dictLookup, hk']
    · by_cases hk' : pk = k'
      · subst hk'
        simp [dictInsert, dictLookup, hpk, Ne.symm hpk]
      · simp [dictInsert, dictLookup, hpk, hk', ih]

/-! ## Lemmas for `avm_module_finder.py` -/

theorem mappedMatch_false (dd : Dict (List String)) (ns rt : String) :
    mappedMatch dd ns rt = false := by
  simp [mappedMatch, RESOURCE_TYPE_MAPPINGS, pairLookup]

theorem directMatch_iff (dd : Dict (List String)) (ns rt : String) :
    directMatch dd ns rt = true ↔ ∃ l, dictLookup dd ns = some l ∧ rt ∈ l := by
  unfold directMatch
  cases h : dictLookup dd ns <;> simp [h]

theorem matchStep_eq (dd : Dict (List String)) (acc : List MatchedRow) (row : AvmRow) :
    matchStep dd acc row = acc ++ (if rowEmitted dd row then [projectAvmRow row] else []) := by
  unfold matchStep rowEmitted
  cases h1 : pyTruthy row.ProviderNamespace <;>
    cases h2 : pyTruthy row.ResourceType <;>
      cases h3 : pyTruthy row.ModuleStatus <;>
        cases h4 : directMatch dd (row.ProviderNamespace.getD "") (row.ResourceType.getD "") <;>
          cases h5 : mappedMatch dd (row.ProviderNamespace.getD "") (row.ResourceType.getD "") <;>
            cases h6 : row.ModuleStatus.getD "" == "Available" <;>
              simp [h1, h2, h3, h4, h5, h6]

theorem match_foldl (dd : Dict (List String)) (rows : List AvmRow) (acc : List MatchedRow) :
    rows.foldl (matchStep dd) acc = acc ++ (rows.filter (rowEmitted dd)).map projectAvmRow := by
  induction rows generalizing acc with
  | nil => simp
  | cons r rest ih =>
    simp only [List.foldl_cons, matchStep_eq, List.filter_cons]
    cases h : rowEmitted dd r <;> simp [ih, h]

theorem loadStep_invalid (dd : Dict (List String)) (row : DepRow)
    (h : (pyTruthy row.ProviderNamespace && pyTruthy row.ResourceType) = false) :
    loadStep dd row = dd := by
  simp [loadStep, h]

theorem loadStep_preserves_mem (dd : Dict (List String)) (row : DepRow) (ns rt : String)
    (h : ∃ l, dictLookup dd ns = some l ∧ rt ∈ l) :
    ∃ l, dictLookup (loadStep dd row) ns = some l ∧ rt ∈ l := by
  obtain ⟨l, hl, hrt⟩ := h
  unfold loadStep
  by_cases hv : (pyTruthy row.ProviderNamespace && pyTruthy row.ResourceType) = true
  · simp only [hv, if_pos]
    rw [dictLookup_dictInsert]
    by_cases hns : row.ProviderNamespace.getD "" = ns
    · subst hns
      refine ⟨_, if_pos rfl, ?_⟩
      rw [hl]
      simp [hrt]
    · rw [if_neg hns]
      exact ⟨l, hl, hrt⟩
  · simp only [Bool.not_eq_true] at hv
    simp [hv]
    exact ⟨l, hl, hrt⟩

theorem load_fold_preserves (rows : List DepRow) (dd : Dict (List String)) (ns rt : String)
    (h : ∃ l, dictLookup dd ns = some l ∧ rt ∈ l) :
    ∃ l, dictLookup (rows.foldl loadStep dd) ns = some l ∧ rt ∈ l := by
  induction rows generalizing dd with
  | nil => exact h
  | cons r rest ih => exact ih _ (loadStep_preserves_mem _ _ _ _ h)

theorem load_fold_mem (rows : List DepRow) (dd : Dict (List String)) (row : DepRow)
    (hmem : row ∈ rows) (h1 : pyTruthy row.ProviderNamespace = true)
    (h2 : pyTruthy row.ResourceType = true) :
    ∃ l, dictLookup (rows.foldl loadStep dd) (row.ProviderNamespace.getD "") = some l ∧
         row.ResourceType.getD "" ∈ l := by
  induction rows generalizing dd with
  | nil => cases hmem
  | cons r rest ih =>
    rw [List.foldl_cons]
    rcases List.mem_cons.mp hmem with hr | hr
    · subst hr
      apply load_fold_preserves
      unfold loadStep
      rw [if_pos (by rw [h1, h2]; rfl)]
      rw [dictLookup_dictInsert, if_pos rfl]
      exact ⟨_, rfl, by simp⟩
    · exact ih _ hr

/-- Claim C8: for every deployment-CSV row in which both the
`ProviderNamespace` and `ResourceType` fields are non-empty, the Deployment
Index returned by `load_deployment_csv` maps that namespace to a list
containing that resource type; a row with either field empty or missing
contributes nothing to the index (the index of a row list equals the index
of its valid rows only). -/
theorem C8_deployment_index :
    (∀ (rows : List DepRow) (row : DepRow), row ∈ rows →
        pyTruthy row.ProviderNamespace = true → pyTruthy row.ResourceType = true →
        ∃ l, dictLookup (load_deployment_csv rows) (row.ProviderNamespace.getD "") = some l ∧
             row.ResourceType.getD "" ∈ l)
    ∧ (∀ rows : List DepRow,
        load_deployment_csv rows =
          load_deployment_csv
            (rows.filter (fun r => pyTruthy r.ProviderNamespace && pyTruthy r.ResourceType))) := by
  constructor
  · intro rows row hmem h1 h2
    exact load_fold_mem rows [] row hmem h1 h2
  · intro rows
    unfold load_deployment_csv
    generalize ([] : Dict (List String)) = dd
    induction rows generalizing dd with
    | nil => rfl
    | cons r rest ih =>
      by_cases hv : (pyTruthy r.ProviderNamespace && pyTruthy r.ResourceType) = true
      · simp only [List.filter_cons, hv, List.foldl_cons]
        exact ih _
      · simp only [Bool.not_eq_true] at hv
        simp only [List.filter_cons, hv, List.foldl_cons, loadStep_invalid _ _ hv]
        exact ih _

/-- Witness for C8 at a concrete deployment row. -/
theorem C8_witness :
    ∃ l, dictLookup (load_deployment_csv [⟨some "Microsoft.Storage", some "storageAccounts"⟩])
          "Microsoft.Storage" = some l ∧ "storageAccounts" ∈ l :=
  C8_deployment_index.1 [⟨some "Microsoft.Storage", some "storageAccounts"⟩]
    ⟨some "Microsoft.Storage", some "storageAccounts"⟩ (by decide) (by decide) (by decide)

/-- Claim C1: a reference-CSV row with non-empty `ProviderNamespace`,
`ResourceType` and `ModuleStatus` is emitted in the Matched Modules list if
and only if its (namespace, resourceType) pair is present in the Deployment
Index and its status equals exactly the string `"Available"`; and every
emitted Matched Module has status `"Available"`. -/
theorem C1_match_iff :
    ∀ (dd : Dict (List String)) (rows : List AvmRow) (row : AvmRow), row ∈ rows →
      pyTruthy row.ProviderNamespace = true → pyTruthy row.ResourceType = true →
      pyTruthy row.ModuleStatus = true →
      ((rowEmitted dd row = true ↔
          ((∃ l, dictLookup dd (row.ProviderNamespace.getD "") = some l ∧
                 row.ResourceType.getD "" ∈ l) ∧ row.ModuleStatus = some "Available"))
       ∧ match_and_filter_modules rows dd = (rows.filter (rowEmitted dd)).map projectAvmRow
       ∧ ∀ m ∈ match_and_filter_modules rows dd, m.ModuleStatus = "Available") := by
  intro dd rows row hmem h1 h2 h3
  have hfold : match_and_filter_modules rows dd = (rows.filter (rowEmitted dd)).map projectAvmRow :=
    match_foldl dd rows []
  refine ⟨?_, hfold, ?_⟩
  · unfold rowEmitted
    rw [h1, h2, h3, mappedMatch_false]
    simp only [Bool.true_and, Bool.or_false, Bool.and_eq_true, beq_iff_eq, directMatch_iff]
    cases hst : row.ModuleStatus with
    | none => rw [hst] at h3; simp [pyTruthy] at h3
    | some s => simp [hst]
  · intro m hm
    rw [hfold] at hm
    obtain ⟨r, hr, hpr⟩ := List.mem_map.mp hm
    have hre : rowEmitted dd r = true := (List.mem_filter.mp hr).2
    unfold rowEmitted at hre
    simp only [Bool.and_eq_true, beq_iff_eq] at hre
    rw [← hpr]
    simpa [projectAvmRow] using hre.2

/-- Witness for C1 at the concrete example of the spec: index
`Microsoft.Storage -> [storageAccounts]`, one `"Available"` row. -/
theorem C1_witness :
    match_and_filter_modules
        [⟨some "Microsoft.Storage", some "storageAccounts", some "m", some "Available",
          some "u", some "r"⟩]
        [("Microsoft.Storage", ["storageAccounts"])] =
      [⟨"Microsoft.Storage", "storageAccounts", "m", "Available", "u", "r"⟩] := by
  have h := C1_match_iff [("Microsoft.Storage", ["storageAccounts"])]
    [⟨some "Microsoft.Storage", some "storageAccounts", some "m", some "Available",
      some "u", some "r"⟩]
    ⟨some "Microsoft.Storage", some "storageAccounts", some "m", some "Available",
      some "u", some "r"⟩ (by decide) (by decide) (by decide) (by decide)
  rw [h.2.1]
  decide

/-! ## Further dictionary lemmas -/

theorem dictInsert_ne_nil {α : Type} (d : Dict α) (k : String) (v : α) :
    dictInsert d k v ≠ [] := by
  cases d with
  | nil => simp [dictInsert]
  | cons p rest =>
    obtain ⟨pk, pv⟩ := p
    by_cases h : pk = k <;> simp [dictInsert, h]

theorem mem_dictInsert {α : Type} (d : Dict α) (k : String) (v : α) (q : String × α)
    (hq : q ∈ dictInsert d k v) : q ∈ d ∨ q = (k, v) := by
  induction d with
  | nil =>
    simp only [dictInsert, List.mem_singleton] at hq
    exact Or.inr hq
  | cons p rest ih =>
    obtain ⟨pk, pv⟩ := p
    by_cases h : pk = k
    · rw [show dictInsert ((pk, pv) :: rest) k v = (pk, v) :: rest by simp [dictInsert, h]] at hq
      rcases List.mem_cons.mp hq with hq1 | hq1
      · exact Or.inr (by rw [hq1, h])
      · exact Or.inl (List.mem_cons_of_mem _ hq1)
    · rw [show dictInsert ((pk, pv) :: rest) k v = (pk, pv) :: dictInsert rest k v by
        simp [dictInsert, h]] at hq
      rcases List.mem_cons.mp hq with hq1 | hq1
      · exact Or.inl (by rw [hq1]; exact List.mem_cons_self _ _)
      · rcases ih hq1 with h1 | h1
        · exact Or.inl (List.mem_cons_of_mem _ h1)
        · exact Or.inr h1

theorem dictLookup_eq_none_iff {α : Type} (d : Dict α) (k : String) :
    dictLookup d k = none ↔ k ∉ d.map Prod.fst := by
  induction d with
  | nil => simp [dictLookup]
  | cons p rest ih =>
    obtain ⟨pk, pv⟩ := p
    by_cases h : pk = k
    · subst h
      simp [dictLookup]
    · simp [dictLookup, h, ih, Ne.symm h]

theorem keys_dictInsert {α : Type} (d : Dict α) (k : String) (v : α) :
    (dictInsert d k v).map Prod.fst =
      if k ∈ d.map Prod.fst then d.map Prod.fst else d.map Prod.fst ++ [k] := by
  induction d with
  | nil => simp [dictInsert]
  | cons p rest ih =>
    obtain ⟨pk, pv⟩ := p
    by_cases h : pk = k
    · subst h
      simp [dictInsert]
    · simp only [dictInsert, if_neg h, List.map_cons, ih, List.mem_cons]
      by_cases hk : k ∈ rest.map Prod.fst <;> simp [hk, Ne.symm h]

theorem nodupKeys_dictInsert {α : Type} (d : Dict α) (k : String) (v : α)
    (h : (d.map Prod.fst).Nodup) : ((dictInsert d k v).map Prod.fst).Nodup := by
  rw [keys_dictInsert]
  by_cases hk : k ∈ d.map Prod.fst
  · simpa [hk] using h
  · simp [hk, List.nodup_append, h]

/-! ## Last-writer characterization of dictionary-building folds -/

/-- One step of a "last writer wins" fold. -/
def lwStep {α β : Type} (g : α → Option β) (acc : Option β) (x : α) : Option β :=
  match g x with
  | some v => some v
  | none => acc

/-- The value contributed by the last element of `l` on which `g` fires:
this is the value a left fold of Python dict assignments keeps. -/
def lastWriter {α β : Type} (g : α → Option β) (l : List α) : Option β :=
  l.foldl (lwStep g) none

theorem foldl_lwStep {α β : Type} (g : α → Option β) (l : List α) :
    ∀ init : Option β,
      l.foldl (lwStep g) init =
        match lastWriter g l with
        | some v => some v
        | none => init := by
  induction l with
  | nil => intro init; simp [lastWriter]
  | cons a rest ih =>
    intro init
    simp only [lastWriter, List.foldl_cons] at *
    rw [ih, ih (lwStep g none a)]
    cases hr : rest.foldl (lwStep g) none <;> cases ha : g a <;> simp [lwStep, ha]

theorem lastWriter_cons {α β : Type} (g : α → Option β) (a : α) (rest : List α) :
    lastWriter g (a :: rest) =
      match lastWriter g rest with
      | some v => some v
      | none => g a := by
  show (a :: rest).foldl (lwStep g) none = _
  rw [List.foldl_cons, foldl_lwStep]
  cases lastWriter g rest <;> cases ha : g a <;> simp [lwStep, ha]

theorem lastWriter_append {α β : Type} (g : α → Option β) (a b : List α) :
    lastWriter g (a ++ b) =
      match lastWriter g b with
      | some v => some v
      | none => lastWriter g a := by
  show (a ++ b).foldl (lwStep g) none = _
  rw [List.foldl_append, foldl_lwStep]
  cases lastWriter g b <;> simp [lastWriter]

theorem lastWriter_eq_none_iff {α β : Type} (g : α → Option β) (l : List α) :
    lastWriter g l = none ↔ ∀ x ∈ l, g x = none := by
  induction l with
  | nil => simp [lastWriter]
  | cons a rest ih =>
    rw [lastWriter_cons]
    constructor
    · intro h
      have hrest : lastWriter g rest = none := by
        by_contra hne
        obtain ⟨v, hv⟩ := Option.ne_none_iff_exists'.mp hne
        rw [hv] at h
        cases h
      rw [hrest] at h
      intro x hx
      rcases List.mem_cons.mp hx with hx | hx
      · rw [hx]; exact h
      · exact ih.mp hrest x hx
    · intro h
      rw [ih.mpr (fun x hx => h x (List.mem_cons_of_mem _ hx))]
      exact h a (List.mem_cons_self a rest)

theorem lastWriter_some_exists {α β : Type} (g : α → Option β) (l : List α) (v : β)
    (h : lastWriter g l = some v) : ∃ x ∈ l, g x = some v := by
  induction l with
  | nil => simp [lastWriter] at h
  | cons a rest ih =>
    rw [lastWriter_cons] at h
    cases hr : lastWriter g rest with
    | some w =>
      rw [hr] at h
      obtain ⟨x, hx, hgx⟩ := ih (by rw [hr, ← h])
      exact ⟨x, List.mem_cons_of_mem _ hx, hgx⟩
    | none =>
      rw [hr] at h
      exact ⟨a, List.mem_cons_self a rest, h⟩

/-- Python dict assignment for key `k`, as a last-writer trigger. -/
def entryFor {α : Type} (k : String) (p : String × α) : Option α :=
  if p.1 = k then some p.2 else none

theorem dictLookup_foldl_insert {α : Type} (l : List (String × α)) :
    ∀ (init : Dict α) (k : String),
      dictLookup (l.foldl (fun d p => dictInsert d p.1 p.2) init) k =
        match lastWriter (entryFor k) l with
        | some v => some v
        | none => dictLookup init k := by
  induction l with
  | nil => intro init k; simp [lastWriter]
  | cons p rest ih =>
    intro init k
    rw [List.foldl_cons, ih, lastWriter_cons]
    cases hr : lastWriter (entryFor k) rest with
    | some v => simp
    | none =>
      simp only
      rw [dictLookup_dictInsert]
      unfold entryFor
      by_cases hp : p.1 = k <;> simp [hp]

theorem dictLookup_pyUnion {α : Type} (a b : Dict α) (k : String) :
    dictLookup (pyUnion a b) k =
      match lastWriter (entryFor k) b with
      | some v => some v
      | none => lastWriter (entryFor k) a := by
  unfold pyUnion
  rw [dictLookup_foldl_insert, lastWriter_append]
  cases lastWriter (entryFor k) b <;> cases lastWriter (entryFor k) a <;> simp [dictLookup]

theorem lastWriter_entryFor_eq_dictLookup {α : Type} (d : Dict α) (k : String)
    (h : (d.map Prod.fst).Nodup) :
    lastWriter (entryFor k) d = dictLookup d k := by
  induction d with
  | nil => simp [lastWriter, dictLookup]
  | cons p rest ih =>
    rw [lastWriter_cons]
    simp only [List.map_cons, List.nodup_cons] at h
    obtain ⟨hp, hrest⟩ := h
    rw [ih hrest]
    by_cases hpk : p.1 = k
    · have hnone : dictLookup rest k = none :=
        (dictLookup_eq_none_iff rest k).mpr (by rw [← hpk]; exact hp)
      rw [hnone]
      simp [dictLookup, entryFor, hpk]
    · cases hl : dictLookup rest k <;> simp [dictLookup, entryFor, hpk, hl]

/-- `dictLookup (pyUnion a b)` for key-unique operands: `b`'s entry when
present, otherwise `a`'s. -/
theorem dictLookup_pyUnion_nodup {α : Type} (a b : Dict α)
    (ha : (a.map Prod.fst).Nodup) (hb : (b.map Prod.fst).Nodup) (k : String) :
    dictLookup (pyUnion a b) k =
      match dictLookup b k with
      | some v => some v
      | none => dictLookup a k := by
  rw [dictLookup_pyUnion, lastWriter_entryFor_eq_dictLookup a k ha,
    lastWriter_entryFor_eq_dictLookup b k hb]

/-! ## Lemmas for the section parsers and the assembled result -/

theorem inputs_fold_lookup (b : Bool) (frags : List String) :
    ∀ (acc : Dict InputInfo) (n : String),
      (dictLookup (frags.foldl (inputsStep b) acc) n).isSome →
      (dictLookup acc n).isSome ∨
        ∃ frag ∈ frags, ∃ r, parse_input_entry frag = some r ∧ r.name = n := by
  induction frags with
  | nil => intro acc n h; exact Or.inl h
  | cons f rest ih =>
    intro acc n h
    rw [List.foldl_cons] at h
    rcases ih _ _ h with h1 | h1
    · unfold inputsStep at h1
      cases hf : parse_input_entry f with
      | none => rw [hf] at h1; exact Or.inl h1
      | some pe =>
        rw [hf] at h1
        rw [dictLookup_dictInsert] at h1
        by_cases hn : pe.name = n
        · exact Or.inr ⟨f, List.mem_cons_self _ _, pe, hf, hn⟩
        · rw [if_neg hn] at h1
          exact Or.inl h1
    · obtain ⟨frag, hm, r, hr⟩ := h1
      exact Or.inr ⟨frag, List.mem_cons_of_mem _ hm, r, hr⟩

theorem inputs_fold_required (b : Bool) (frags : List String) :
    ∀ acc : Dict InputInfo, (∀ n v, dictLookup acc n = some v → v.required = b) →
      ∀ n v, dictLookup (frags.foldl (inputsStep b) acc) n = some v → v.required = b := by
  induction frags with
  | nil => intro acc hacc n v h; exact hacc n v h
  | cons f rest ih =>
    intro acc hacc n v h
    rw [List.foldl_cons] at h
    refine ih _ ?_ n v h
    intro n' v' h'
    unfold inputsStep at h'
    cases hf : parse_input_entry f with
    | none => rw [hf] at h'; exact hacc n' v' h'
    | some pe =>
      rw [hf, dictLookup_dictInsert] at h'
      by_cases hn : pe.name = n'
      · rw [if_pos hn] at h'
        rw [← Option.some.inj h']
        rfl
      · rw [if_neg hn] at h'
        exact hacc n' v' h'

theorem parse_inputs_section_required (s : String) (b : Bool) (n : String) (v : InputInfo)
    (h : dictLookup (parse_inputs_section s b) n = some v) : v.required = b :=
  inputs_fold_required b (inputFragments s) []
    (by intro n' v' h'; simp [dictLookup] at h') n v h

theorem inputs_fold_nodup (b : Bool) (frags : List String) :
    ∀ acc : Dict InputInfo, (acc.map Prod.fst).Nodup →
      ((frags.foldl (inputsStep b) acc).map Prod.fst).Nodup := by
  induction frags with
  | nil => intro acc h; exact h
  | cons f rest ih =>
    intro acc h
    rw [List.foldl_cons]
    refine ih _ ?_
    unfold inputsStep
    cases parse_input_entry f with
    | none => exact h
    | some pe => exact nodupKeys_dictInsert _ _ _ h

theorem parse_inputs_section_nodup (s : String) (b : Bool) :
    ((parse_inputs_section s b).map Prod.fst).Nodup :=
  inputs_fold_nodup b (inputFragments s) [] (by simp)

/-- The shape of the dictionary `ReadmeParser.parse` assembles: a single
binding of the module name, each field of which can be read off. -/
theorem parse_result_eq (fs : Fs) (disc : String → List String) (bd mn content : String)
    (subs0 : Dict SubmoduleDoc) :
    ∃ doc : ModuleDoc,
      ReadmeParser.parse fs disc bd mn content subs0 = [(mn, doc)]
      ∧ doc.name = mn
      ∧ doc.description = ""
      ∧ doc.inputs = pyUnion (parse_inputs_section (extract_section content "Required Inputs") true)
          (parse_inputs_section (extract_section content "Optional Inputs") false)
      ∧ doc.outputs = parse_outputs_section (extract_section content "Outputs")
      ∧ doc.module_requirements = parse_requirements_section (extract_section content "Requirements")
      ∧ doc.submodules =
          (if (if extract_section content "Submodules" != "" then
                 (disc (extract_section content "Submodules")).foldl (processOneSubmodule fs bd) subs0
               else subs0) ≠ [] then
             some (if extract_section content "Submodules" != "" then
                 (disc (extract_section content "Submodules")).foldl (processOneSubmodule fs bd) subs0
               else subs0)
           else none) :=
  ⟨_, rfl, rfl, rfl, rfl, rfl, rfl, rfl⟩

/-- Claim C10: section extraction does not require the heading marker to
start a line — in this document the character sequence `## Outputs` occurs
only in the middle of a line, not as a heading, yet `extract_section`
treats that occurrence as the section start and returns the text following
it up to the next line beginning with `## `. -/
theorem C10_midline_heading :
    extract_section "intro ## Outputs first\nsecond\n## Next\nrest" "Outputs" = "first\nsecond" := by
  decide

/-- Claim C2: the example input entry parses to name `location`,
description `The region.`, type `string`, the required flag passed to the
section parser, and no default key; an entry fragment lacking the
anchor/name pattern parses to the empty result and contributes nothing to
the containing inputs mapping. -/
theorem C2_input_entry :
    (∀ b : Bool,
        parse_inputs_section inputSectionC2 b =
          [("location",
            { name := "location", description := "The region.", ty := "string"
              default := none, required := b })])
    ∧ (∀ entry : String,
        searchTwoLazy ("### <a name=\"input_".data) ("\"></a> [".data) ("]".data) entry.data =
            none →
        parse_input_entry entry = none)
    ∧ (∀ (s : String) (b : Bool) (n : String),
        (dictLookup (parse_inputs_section s b) n).isSome →
        ∃ frag ∈ inputFragments s, ∃ r, parse_input_entry frag = some r ∧ r.name = n) := by
  refine ⟨?_, ?_, ?_⟩
  · intro b
    have hfrag : inputFragments inputSectionC2 = [inputFragmentC2] := by decide
    have hentry : parse_input_entry inputFragmentC2 =
        some { name := "location", description := "The region.", ty := "string"
               default := none } := by decide
    simp [parse_inputs_section, hfrag, inputsStep, hentry, dictInsert, InputEntry.withRequired]
  · intro entry h
    simp [parse_input_entry, h]
  · intro s b n h
    rcases inputs_fold_lookup b (inputFragments s) [] n h with h1 | h1
    · simp [dictLookup] at h1
    · exact h1

/-- Witness for C2: a fragment without the anchor pattern parses to the
empty result, and the example section parses to the single expected
record. -/
theorem C2_witness :
    parse_input_entry "some section preamble without any anchor" = none ∧
    parse_inputs_section inputSectionC2 true =
      [("location",
        { name := "location", description := "The region.", ty := "string"
          default := none, required := true })] :=
  ⟨C2_input_entry.2.1 "some section preamble without any anchor" (by decide),
   C2_input_entry.1 true⟩

/-- Claim C3: in the assembled result the required-inputs and
optional-inputs mappings are merged into one `inputs` mapping keyed by
input name; for a name present in both, the optional entry (with
`required = false`) overwrites the required one; a name present in only
one mapping keeps its entry unchanged. -/
theorem C3_inputs_merge :
    ∀ (fs : Fs) (disc : String → List String) (bd mn content : String)
      (subs0 : Dict SubmoduleDoc) (d : ModuleDoc) (n : String),
      dictLookup (ReadmeParser.parse fs disc bd mn content subs0) mn = some d →
      (d.inputs = pyUnion (parse_inputs_section (extract_section content "Required Inputs") true)
          (parse_inputs_section (extract_section content "Optional Inputs") false)
       ∧ (∀ r o,
            dictLookup (parse_inputs_section (extract_section content "Required Inputs") true) n =
                some r →
            dictLookup (parse_inputs_section (extract_section content "Optional Inputs") false) n =
                some o →
            dictLookup d.inputs n = some o ∧ o.required = false)
       ∧ (dictLookup (parse_inputs_section (extract_section content "Optional Inputs") false) n =
              none →
            dictLookup d.inputs n =
              dictLookup (parse_inputs_section (extract_section content "Required Inputs") true) n)
       ∧ (dictLookup (parse_inputs_section (extract_section content "Required Inputs") true) n =
              none →
            dictLookup d.inputs n =
              dictLookup (parse_inputs_section (extract_section content "Optional Inputs") false) n)) := by
  intro fs disc bd mn content subs0 d n hd
  obtain ⟨doc, hres, -, -, hinp, -, -, -⟩ := parse_result_eq fs disc bd mn content subs0
  rw [hres] at hd
  simp only [dictLookup, if_pos rfl] at hd
  obtain rfl := Option.some.inj hd
  have hreqnd := parse_inputs_section_nodup (extract_section content "Required Inputs") true
  have hoptnd := parse_inputs_section_nodup (extract_section content "Optional Inputs") false
  refine ⟨hinp, ?_, ?_, ?_⟩
  · intro r o hr ho
    rw [hinp, dictLookup_pyUnion_nodup _ _ hreqnd hoptnd, ho]
    exact ⟨rfl, parse_inputs_section_required _ _ _ _ ho⟩
  · intro ho
    rw [hinp, dictLookup_pyUnion_nodup _ _ hreqnd hoptnd, ho]
  · intro hr
    rw [hinp, dictLookup_pyUnion_nodup _ _ hreqnd hoptnd, hr]
    cases dictLookup (parse_inputs_section (extract_section content "Optional Inputs") false) n <;>
      rfl

/-- Witness for C3 on `contentC3`, whose two input sections share the name
`location`: the merged entry is the optional one. -/
theorem C3_witness :
    ∃ d, dictLookup resultC3 "m" = some d ∧
      dictLookup d.inputs "location" =
        some { name := "location", description := "Opt.", ty := "string"
               default := some "eastus", required := false } := by
  cases hd : dictLookup resultC3 "m" with
  | none => exact absurd hd (by decide)
  | some d =>
    have h := C3_inputs_merge noFs noNames "" "m" contentC3 [] d "location" hd
    refine ⟨d, rfl, ?_⟩
    have hreq : dictLookup (parse_inputs_section (extract_section contentC3 "Required Inputs") true)
        "location" =
        some { name := "location", description := "Req.", ty := "string"
               default := none, required := true } := by decide
    have hopt : dictLookup (parse_inputs_section (extract_section contentC3 "Optional Inputs") false)
        "location" =
        some { name := "location", description := "Opt.", ty := "string"
               default := some "eastus", required := false } := by decide
    exact (h.2.1 _ _ hreq hopt).1

/-! ## Lemmas for the requirements parser -/

theorem reqFold_fst (lines : List String) :
    ∀ st : Option String × Dict Provider,
      (lines.foldl reqFold st).1 = lines.foldl (lwStep (capVer "terraform")) st.1 := by
  induction lines with
  | nil => intro st; rfl
  | cons l rest ih =>
    intro st
    rw [List.foldl_cons, List.foldl_cons, ih]
    congr 1
    unfold reqFold lwStep capVer
    cases h : lineCaptured l with
    | none => simp [h]
    | some p => by_cases hp : p.1 = "terraform" <;> simp [h, hp]

theorem reqFold_fst_lastWriter (lines : List String) :
    (lines.foldl reqFold (none, [])).1 = lastWriter (capVer "terraform") lines := by
  rw [reqFold_fst]
  rfl

theorem reqFold_snd_lookup (n : String) (hn : n ≠ "terraform") (lines : List String) :
    ∀ st : Option String × Dict Provider,
      dictLookup (lines.foldl reqFold st).2 n =
        match lastWriter (capVer n) lines with
        | some v => some { source := srcOf n, version := v }
        | none => dictLookup st.2 n := by
  induction lines with
  | nil => intro st; simp [lastWriter]
  | cons l rest ih =>
    intro st
    rw [List.foldl_cons, ih, lastWriter_cons]
    cases hr : lastWriter (capVer n) rest with
    | some v => simp
    | none =>
      simp only
      unfold reqFold
      cases h : lineCaptured l with
      | none => simp [capVer, h]
      | some p =>
        by_cases hp : p.1 = "terraform"
        · have hpn : ¬ p.1 = n := by rw [hp]; exact fun hc => hn hc.symm
          simp [capVer, h, hp, hpn, Ne.symm hn]
        · by_cases hpn : p.1 = n
          · simp [capVer, h, hp, hpn, hn, dictLookup_dictInsert, srcOf]
          · simp [capVer, h, hp, hpn, dictLookup_dictInsert]

theorem reqFold_snd_nil (lines : List String) :
    ∀ st : Option String × Dict Provider,
      ((lines.foldl reqFold st).2 = [] ↔
        (st.2 = [] ∧ ∀ l ∈ lines, ∀ p, lineCaptured l = some p → p.1 = "terraform")) := by
  induction lines with
  | nil => intro st; simp
  | cons l rest ih =>
    intro st
    rw [List.foldl_cons, ih]
    constructor
    · rintro ⟨h2, hall⟩
      have hst2 : st.2 = [] ∧ ∀ p, lineCaptured l = some p → p.1 = "terraform" := by
        unfold reqFold at h2
        cases h : lineCaptured l with
        | none =>
          rw [h] at h2
          exact ⟨h2, by intro p hp; cases hp⟩
        | some p =>
          rw [h] at h2
          by_cases hp : p.1 = "terraform"
          · simp only [hp, if_pos] at h2
            refine ⟨h2, ?_⟩
            intro q hq
            rw [← Option.some.inj hq]
            exact hp
          · simp only [hp, if_neg, if_false] at h2
            exact absurd h2 (dictInsert_ne_nil _ _ _)
      obtain ⟨hstnil, hl⟩ := hst2
      refine ⟨hstnil, ?_⟩
      intro l' hl' p hp
      rcases List.mem_cons.mp hl' with rfl | hmem
      · exact hl p hp
      · exact hall l' hmem p hp
    · rintro ⟨hstnil, hall⟩
      refine ⟨?_, fun l' hl' p hp => hall l' (List.mem_cons_of_mem _ hl') p hp⟩
      unfold reqFold
      cases h : lineCaptured l with
      | none => exact hstnil
      | some p =>
        have hp := hall l (List.mem_cons_self _ _) p h
        simp only [hp, if_pos]
        exact hstnil

/-- `parse_requirements_section` on a non-empty section, with the trailing
truthiness checks written out (the `let` of the source unfolded). -/
theorem parse_requirements_spec (sec : String) (hsec : sec ≠ "") :
    parse_requirements_section sec =
      (if (pyTruthy ((pyLines sec).foldl reqFold (none, [])).1 ||
           decide (((pyLines sec).foldl reqFold (none, [])).2 ≠ [])) = true then
        some { required_version :=
                 if pyTruthy ((pyLines sec).foldl reqFold (none, [])).1 then
                   ((pyLines sec).foldl reqFold (none, [])).1
                 else none
               required_providers := ((pyLines sec).foldl reqFold (none, [])).2 }
       else none) := by
  unfold parse_requirements_section
  rw [if_neg hsec]

/-- Claim C4: each Requirements-section line matching the requirement
anchor with a trailing parenthesized version is captured — the last
captured `terraform` line as the core version constraint, the last
captured line of any other name as a provider entry with source
`hashicorp/{name}`, except the hard-coded `modtm -> azure/modtm` — and the
`module_requirements` key is present in the result iff at least one
requirement line was captured (under the hypothesis, true of every real
section, that no captured version strips to the empty string). -/
theorem C4_requirements :
    ∀ sec : String,
      (∀ l ∈ pyLines sec, ∀ p, lineCaptured l = some p → p.2 ≠ "") →
      (((parse_requirements_section sec).isSome ↔
          ∃ l ∈ pyLines sec, (lineCaptured l).isSome)
       ∧ (∀ blk, parse_requirements_section sec = some blk →
            blk.required_version = lastWriter (capVer "terraform") (pyLines sec)
            ∧ ∀ n, n ≠ "terraform" →
                dictLookup blk.required_providers n =
                  (lastWriter (capVer n) (pyLines sec)).map
                    (fun v => { source := srcOf n, version := v }))
       ∧ (∀ (fs : Fs) (disc : String → List String) (bd mn content : String)
            (subs0 : Dict SubmoduleDoc) (d : ModuleDoc),
            dictLookup (ReadmeParser.parse fs disc bd mn content subs0) mn = some d →
            d.module_requirements =
              parse_requirements_section (extract_section content "Requirements"))) := by
  intro sec hv
  have htrue : pyTruthy (lastWriter (capVer "terraform") (pyLines sec)) = true →
      ∃ l ∈ pyLines sec, (lineCaptured l).isSome := by
    intro ht
    cases hl : lastWriter (capVer "terraform") (pyLines sec) with
    | none => rw [hl] at ht; cases ht
    | some v =>
      obtain ⟨l, hm, hc⟩ := lastWriter_some_exists _ _ _ hl
      refine ⟨l, hm, ?_⟩
      unfold capVer at hc
      cases hcap : lineCaptured l with
      | none => simp [hcap] at hc
      | some p => simp
  have hterr : ∀ v, lastWriter (capVer "terraform") (pyLines sec) = some v → v ≠ "" := by
    intro v hl
    obtain ⟨l, hm, hc⟩ := lastWriter_some_exists _ _ _ hl
    unfold capVer at hc
    cases hcap : lineCaptured l with
    | none => simp [hcap] at hc
    | some p =>
      rw [hcap] at hc
      by_cases hp : p.1 = "terraform"
      · simp only [hp, if_pos] at hc
        rw [← Option.some.inj hc]
        exact hv l hm p hcap
      · simp [hp] at hc
  refine ⟨?_, ?_, ?_⟩
  · by_cases hsec : sec = ""
    · subst hsec
      constructor
      · intro h
        simp [parse_requirements_section] at h
      · intro h
        exact absurd h (by decide)
    · rw [parse_requirements_spec sec hsec]
      constructor
      · intro h
        by_cases hcond : (pyTruthy ((pyLines sec).foldl reqFold (none, [])).1 ||
            decide (((pyLines sec).foldl reqFold (none, [])).2 ≠ [])) = true
        · rcases Bool.or_eq_true_iff.mp hcond with hc | hc
          · rw [reqFold_fst_lastWriter] at hc
            exact htrue hc
          · have hne := of_decide_eq_true hc
            have := (reqFold_snd_nil (pyLines sec) (none, [])).not.mp hne
            rw [not_and] at this
            have h2 := this rfl
            push_neg at h2
            obtain ⟨l, hm, p, hp, -⟩ := h2
            exact ⟨l, hm, by rw [hp]; simp⟩
        · rw [if_neg hcond] at h
          cases h
      · rintro ⟨l, hm, hc⟩
        obtain ⟨p, hp⟩ := Option.isSome_iff_exists.mp hc
        by_cases hptf : p.1 = "terraform"
        · have hlw : lastWriter (capVer "terraform") (pyLines sec) ≠ none := by
            intro hnone
            have := (lastWriter_eq_none_iff _ _).mp hnone l hm
            unfold capVer at this
            simp [hp, hptf] at this
          obtain ⟨v, hvv⟩ := Option.ne_none_iff_exists'.mp hlw
          have hpt : pyTruthy ((pyLines sec).foldl reqFold (none, [])).1 = true := by
            rw [reqFold_fst_lastWriter, hvv]
            simp [pyTruthy, hterr v hvv]
          rw [if_pos (by rw [hpt]; rfl)]
          rfl
        · have hne : ((pyLines sec).foldl reqFold (none, [])).2 ≠ [] := by
            intro hnil
            have := ((reqFold_snd_nil (pyLines sec) (none, [])).mp hnil).2 l hm p hp
            exact hptf this
          rw [if_pos (by rw [decide_eq_true hne]; simp)]
          rfl
  · intro blk hblk
    by_cases hsec : sec = ""
    · subst hsec
      rw [show parse_requirements_section "" = none from rfl] at hblk
      cases hblk
    · rw [parse_requirements_spec sec hsec] at hblk
      by_cases hcond : (pyTruthy ((pyLines sec).foldl reqFold (none, [])).1 ||
          decide (((pyLines sec).foldl reqFold (none, [])).2 ≠ [])) = true
      · rw [if_pos hcond] at hblk
        obtain rfl := Option.some.inj hblk
        constructor
        · show (if pyTruthy ((pyLines sec).foldl reqFold (none, [])).1 then
              ((pyLines sec).foldl reqFold (none, [])).1 else none) = _
          rw [reqFold_fst_lastWriter]
          cases hl : lastWriter (capVer "terraform") (pyLines sec) with
          | none => simp [pyTruthy]
          | some v => simp [pyTruthy, hterr v hl]
        · intro n hn
          show dictLookup ((pyLines sec).foldl reqFold (none, [])).2 n = _
          rw [reqFold_snd_lookup n hn]
          cases lastWriter (capVer n) (pyLines sec) <;> simp [dictLookup]
      · rw [if_neg hcond] at hblk
        cases hblk
  · intro fs disc bd mn content subs0 d hd
    obtain ⟨doc, hres, -, -, -, -, hmr, -⟩ := parse_result_eq fs disc bd mn content subs0
    rw [hres] at hd
    simp only [dictLookup, if_pos rfl] at hd
    obtain rfl := Option.some.inj hd
    exact hmr

/-- Witness for C4 on a realistic three-line Requirements section. -/
theorem C4_witness :
    (parse_requirements_section reqSectionC4).isSome ∧
    ∃ blk, parse_requirements_section reqSectionC4 = some blk ∧
      dictLookup blk.required_providers "modtm" =
        some { source := "azure/modtm", version := "~> 0.3" } := by
  have hv : ∀ l ∈ pyLines reqSectionC4, ∀ p, lineCaptured l = some p → p.2 ≠ "" := by decide
  have h := C4_requirements reqSectionC4 hv
  refine ⟨h.1.mpr (by decide), ?_⟩
  cases hp : parse_requirements_section reqSectionC4 with
  | none =>
    exact absurd (h.1.mpr (by decide)) (by rw [hp]; simp)
  | some blk =>
    refine ⟨blk, rfl, ?_⟩
    have h2 := (h.2.1 blk hp).2 "modtm" (by decide)
    rw [h2]
    decide

/-! ## Lemmas for the registry fetcher -/

theorem tryReadmePaths_snd_indep (http : Http) (l : List String) :
    ∀ st1 st2 : Fetcher, (tryReadmePaths http st1 l).2 = (tryReadmePaths http st2 l).2 := by
  induction l with
  | nil => intro st1 st2; rfl
  | cons p rest ih =>
    intro st1 st2
    simp only [tryReadmePaths]
    cases http ("https://raw.githubusercontent.com/" ++ p) with
    | some text => rfl
    | none => exact ih st1 st2

theorem tryReadmePaths_records (http : Http) (l : List String) :
    ∀ (st : Fetcher) (text br : String),
      (tryReadmePaths http st l).2 = some (text, br) →
      (tryReadmePaths http st l).1.repo_branch = some br := by
  induction l with
  | nil => intro st text br h; cases h
  | cons p rest ih =>
    intro st text br h
    simp only [tryReadmePaths] at h ⊢
    cases hh : http ("https://raw.githubusercontent.com/" ++ p) with
    | some t =>
      rw [hh] at h
      simp only at h
      have hpair := Option.some.inj h
      rw [Prod.ext_iff] at hpair
      have hbr : (if containsSubstr "main" ("https://raw.githubusercontent.com/" ++ p) = true
          then "main" else "master") = br := by simpa using hpair.2
      simp only
      rw [hbr]
    | none =>
      rw [hh] at h
      exact ih st text br h

theorem tryReadmePaths_fst_fields (http : Http) (l : List String) :
    ∀ st : Fetcher,
      (tryReadmePaths http st l).1.github_repo = st.github_repo ∧
      (tryReadmePaths http st l).1.name = st.name := by
  induction l with
  | nil => intro st; exact ⟨rfl, rfl⟩
  | cons p rest ih =>
    intro st
    simp only [tryReadmePaths]
    cases http ("https://raw.githubusercontent.com/" ++ p) with
    | some text => exact ⟨rfl, rfl⟩
    | none => exact ih st

theorem fetch_readme_content_snd (http : Http) (st1 st2 : Fetcher) (repo path : String) :
    (fetch_readme_content http st1 repo path).2 = (fetch_readme_content http st2 repo path).2 := by
  unfold fetch_readme_content
  exact tryReadmePaths_snd_indep http _ st1 st2

theorem fetch_readme_content_records (http : Http) (st : Fetcher) (repo path text br : String)
    (h : (fetch_readme_content http st repo path).2 = some (text, br)) :
    (fetch_readme_content http st repo path).1.repo_branch = some br := by
  unfold fetch_readme_content at h ⊢
  exact tryReadmePaths_records http _ st text br h

theorem fetch_readme_content_fst_fields (http : Http) (st : Fetcher) (repo path : String) :
    (fetch_readme_content http st repo path).1.github_repo = st.github_repo ∧
    (fetch_readme_content http st repo path).1.name = st.name := by
  unfold fetch_readme_content
  exact tryReadmePaths_fst_fields http _ st

theorem fetch_submodule_readme_none (http : Http) (st : Fetcher) (p n : String)
    (h : st.github_repo = none) : fetch_submodule_readme http st p n = (st, none) := by
  unfold fetch_submodule_readme
  rw [h]

theorem fetch_submodule_readme_some (http : Http) (st : Fetcher) (p n repo : String)
    (h : st.github_repo = some repo) :
    fetch_submodule_readme http st p n =
      (match fetch_readme_content http st repo (cleanSubmodulePath p) with
       | (st', none) => (st', none)
       | (st', some (readme_content, _)) =>
         (st', some (submoduleReadmeFilename st n, readme_content))) := by
  unfold fetch_submodule_readme
  rw [h]

theorem fetch_submodule_readme_snd (http : Http) (st1 st2 : Fetcher)
    (hrepo : st1.github_repo = st2.github_repo) (hname : st1.name = st2.name)
    (p n : String) :
    (fetch_submodule_readme http st1 p n).2 = (fetch_submodule_readme http st2 p n).2 := by
  cases hg : st2.github_repo with
  | none =>
    rw [fetch_submodule_readme_none http st1 p n (by rw [hrepo, hg]),
      fetch_submodule_readme_none http st2 p n hg]
  | some repo =>
    rw [fetch_submodule_readme_some http st1 p n repo (by rw [hrepo, hg]),
      fetch_submodule_readme_some http st2 p n repo hg]
    have hfn : submoduleReadmeFilename st1 n = submoduleReadmeFilename st2 n := by
      unfold submoduleReadmeFilename
      rw [hname]
    rw [hfn]
    have h2 := fetch_readme_content_snd http st1 st2 repo (cleanSubmodulePath p)
    rcases hfc1 : fetch_readme_content http st1 repo (cleanSubmodulePath p) with ⟨sa, ra⟩
    rcases hfc2 : fetch_readme_content http st2 repo (cleanSubmodulePath p) with ⟨sb, rb⟩
    rw [hfc1, hfc2] at h2
    simp only at h2
    subst h2
    cases ra with
    | none => rfl
    | some pr =>
      rcases pr with ⟨c, br⟩
      rfl

theorem fetch_submodule_readme_fst_fields (http : Http) (st : Fetcher) (p n : String) :
    (fetch_submodule_readme http st p n).1.github_repo = st.github_repo ∧
    (fetch_submodule_readme http st p n).1.name = st.name := by
  cases hg : st.github_repo with
  | none =>
    rw [fetch_submodule_readme_none http st p n hg]
    exact ⟨hg, rfl⟩
  | some repo =>
    rw [fetch_submodule_readme_some http st p n repo hg]
    have hf := fetch_readme_content_fst_fields http st repo (cleanSubmodulePath p)
    rw [hg] at hf
    rcases hfc : fetch_readme_content http st repo (cleanSubmodulePath p) with ⟨sa, ra⟩
    rw [hfc] at hf
    cases ra with
    | none => exact hf
    | some pr =>
      rcases pr with ⟨c, br⟩
      exact hf

/-- Claim C5 counterexample, at a concrete oracle: the top-level README
exists only on `master`, so the first fetch records `repo_branch =
"master"`; yet the subsequent submodule fetch re-probes `main` first,
returns the `main`-branch content, and re-records `"main"` — the recorded
branch is neither used nor sticky. -/
theorem C5_counterexample :
    (fetch_readme_content httpC5 fetcherC5 "Azure/x" "").1.repo_branch = some "master" ∧
    (fetch_readme_content httpC5 fetcherC5 "Azure/x" "").2 = some ("TOP", "master") ∧
    (fetch_submodule_readme httpC5 (fetch_readme_content httpC5 fetcherC5 "Azure/x" "").1
        "modules/m" "m").2 = some ("working/x_m_README.md", "SUBMAIN") ∧
    (fetch_submodule_readme httpC5 (fetch_readme_content httpC5 fetcherC5 "Azure/x" "").1
        "modules/m" "m").1.repo_branch = some "main" := by
  decide

/-- Claim C5 (amended): within a registry-mode run the first branch
yielding an HTTP 200 is recorded in `repo_branch`, but the recorded branch
is never consulted afterwards: the results of `fetch_readme_content` and
`fetch_submodule_readme` are independent of the stored `repo_branch`, and
every fetch re-probes the fixed `main`-then-`master` URL list; a
successful fetch records the branch found by that same call. -/
theorem C5_branch_recorded_not_reused :
    ∀ (http : Http) (st : Fetcher) (b : Option String),
      (∀ repo path, (fetch_readme_content http { st with repo_branch := b } repo path).2 =
          (fetch_readme_content http st repo path).2)
      ∧ (∀ p n, (fetch_submodule_readme http { st with repo_branch := b } p n).2 =
          (fetch_submodule_readme http st p n).2)
      ∧ (∀ repo path text br,
          (fetch_readme_content http st repo path).2 = some (text, br) →
          (fetch_readme_content http st repo path).1.repo_branch = some br) := by
  intro http st b
  refine ⟨?_, ?_, ?_⟩
  · intro repo path
    exact fetch_readme_content_snd http { st with repo_branch := b } st repo path
  · intro p n
    exact fetch_submodule_readme_snd http { st with repo_branch := b } st rfl rfl p n
  · intro repo path text br h
    exact fetch_readme_content_records http st repo path text br h

/-- Witness for the amended C5 at the concrete oracle. -/
theorem C5_witness :
    (fetch_submodule_readme httpC5 { fetcherC5 with repo_branch := some "master" } "modules/m"
        "m").2 =
      (fetch_submodule_readme httpC5 fetcherC5 "modules/m" "m").2 ∧
    (fetch_readme_content httpC5 fetcherC5 "Azure/x" "").1.repo_branch = some "master" :=
  ⟨(C5_branch_recorded_not_reused httpC5 fetcherC5 (some "master")).2.1 "modules/m" "m",
   (C5_branch_recorded_not_reused httpC5 fetcherC5 none).2.2 "Azure/x" "" "TOP" "master"
     (by decide)⟩

/-! ## Claim C6: registry-mode failure handling -/

/-- Claim C6 counterexample: with a failing registry API, the registry-mode
run aborts before producing any output, but the process terminates with
exit status 0 — not a non-zero status as claimed. -/
theorem C6_counterexample :
    (registryMain regApiFail noHttp noFs noModules noNames "/app"
        "Azure/avm-res-keyvault-vault/azurerm").exitCode = 0 ∧
    (registryMain regApiFail noHttp noFs noModules noNames "/app"
        "Azure/avm-res-keyvault-vault/azurerm").output = none := by
  decide

/-- Claim C6 (amended): in registry mode, every failure at the
source-lookup, repo-extraction or top-level README-fetch stage aborts the
whole run — `main` returns before producing a result — but the process
terminates with exit status 0, not a non-zero status: `main` merely logs
the failure and returns, its top-level handler swallows exceptions, and
nothing on these paths calls `sys.exit`. -/
theorem C6_failures_abort_with_exit_zero :
    ∀ (regApi : RegApi) (http : Http) (fs : Fs)
      (dM : String → List (String × String × String)) (dN : String → List String)
      (sd mn : String) (nsv : String × String × String),
      parseModuleName mn = some nsv →
      (fetch_module_source regApi (initFetcher nsv.1 nsv.2.1 nsv.2.2) = none ∨
       (∃ su, fetch_module_source regApi (initFetcher nsv.1 nsv.2.1 nsv.2.2) = some su ∧
          extract_github_repo su = none) ∨
       (fetch_and_save_readme regApi http (initFetcher nsv.1 nsv.2.1 nsv.2.2)).2 = none) →
      registryMain regApi http fs dM dN sd mn = { exitCode := 0, output := none } := by
  intro regApi http fs dM dN sd mn nsv hpm hfail
  have hnone : (fetch_and_save_readme regApi http (initFetcher nsv.1 nsv.2.1 nsv.2.2)).2 =
      none := by
    rcases hfail with h | ⟨su, hsu, hex⟩ | h
    · unfold fetch_and_save_readme
      rw [h]
    · unfold fetch_and_save_readme
      rw [hsu]
      simp only [hex]
    · exact h
  unfold registryMain
  simp only [hpm]
  rcases hfs : fetch_and_save_readme regApi http (initFetcher nsv.1 nsv.2.1 nsv.2.2) with ⟨st1, r⟩
  rw [hfs] at hnone
  simp only at hnone
  subst hnone
  rfl

/-- Witness for the amended C6: the concrete failing registry API. -/
theorem C6_witness :
    registryMain regApiFail noHttp noFs noModules noNames "/app"
        "Azure/avm-res-keyvault-vault/azurerm" = { exitCode := 0, output := none } :=
  C6_failures_abort_with_exit_zero regApiFail noHttp noFs noModules noNames "/app"
    "Azure/avm-res-keyvault-vault/azurerm" ("Azure", "avm-res-keyvault-vault", "azurerm")
    (by decide) (Or.inl (by decide))

/-! ## Lemmas for the submodule loop -/

theorem subStep_fst_fields (http : Http) (acc : Fetcher × Dict SubmoduleDoc) (info : SubInfo) :
    (subStep http acc info).1.github_repo = acc.1.github_repo ∧
    (subStep http acc info).1.name = acc.1.name := by
  unfold subStep
  have hf := fetch_submodule_readme_fst_fields http acc.1 info.path info.name
  rcases hfc : fetch_submodule_readme http acc.1 info.path info.name with ⟨st', r⟩
  rw [hfc] at hf
  cases r with
  | none => exact hf
  | some pr =>
    rcases pr with ⟨f, c⟩
    exact hf

theorem subStep_snd (http : Http) (acc : Fetcher × Dict SubmoduleDoc) (info : SubInfo) :
    (subStep http acc info).2 =
      match (fetch_submodule_readme http acc.1 info.path info.name).2 with
      | none => acc.2
      | some (_, content) =>
        dictInsert acc.2 info.name
          { name := info.name, path := some info.path, description := info.description
            inputs := (parse_readme_directly content).inputs
            outputs := (parse_readme_directly content).outputs } := by
  unfold subStep
  rcases hfc : fetch_submodule_readme http acc.1 info.path info.name with ⟨st', r⟩
  cases r with
  | none => rfl
  | some pr =>
    rcases pr with ⟨f, c⟩
    rfl

theorem mem_keys_dictInsert {α : Type} (d : Dict α) (k : String) (v : α) (n : String) :
    n ∈ (dictInsert d k v).map Prod.fst ↔ n ∈ d.map Prod.fst ∨ n = k := by
  rw [keys_dictInsert]
  by_cases h : k ∈ d.map Prod.fst
  · rw [if_pos h]
    constructor
    · exact Or.inl
    · rintro (hn | rfl)
      · exact hn
      · exact h
  · rw [if_neg h]
    simp [List.mem_append]

theorem length_dictInsert_not_mem {α : Type} (d : Dict α) (k : String) (v : α)
    (h : k ∉ d.map Prod.fst) : (dictInsert d k v).length = d.length + 1 := by
  induction d with
  | nil => rfl
  | cons p rest ih =>
    obtain ⟨pk, pv⟩ := p
    simp only [List.map_cons, List.mem_cons] at h
    push_neg at h
    obtain ⟨h1, h2⟩ := h
    rw [show dictInsert ((pk, pv) :: rest) k v = (pk, pv) :: dictInsert rest k v by
      simp only [dictInsert]
      rw [if_neg (fun hc : pk = k => h1 hc.symm)]]
    simp [ih h2]

theorem length_filter_not {α : Type} (p : α → Bool) (l : List α) :
    (l.filter p).length + (l.filter (fun x => !(p x))).length = l.length := by
  induction l with
  | nil => rfl
  | cons a rest ih =>
    cases h : p a <;> simp [List.filter_cons, h, ← ih] <;> omega

theorem processSubInfos_count (http : Http) (infos : List SubInfo) :
    ∀ (st : Fetcher) (acc : Dict SubmoduleDoc),
      (infos.map SubInfo.name).Nodup →
      (∀ i ∈ infos, i.name ∉ acc.map Prod.fst) →
      (infos.foldl (subStep http) (st, acc)).2.length =
        acc.length +
          (infos.filter (fun i =>
            ((fetch_submodule_readme http st i.path i.name).2).isSome)).length := by
  induction infos with
  | nil => intro st acc _ _; simp
  | cons i rest ih =>
    intro st acc hnd hfresh
    rw [List.foldl_cons, List.filter_cons]
    have hsnd := subStep_snd http (st, acc) i
    have hfld := subStep_fst_fields http (st, acc) i
    rcases hstep : subStep http (st, acc) i with ⟨st1, acc1⟩
    rw [hstep] at hsnd hfld
    simp only at hsnd hfld
    have hnd' : (rest.map SubInfo.name).Nodup := by
      simp only [List.map_cons, List.nodup_cons] at hnd
      exact hnd.2
    have hiname : i.name ∉ rest.map SubInfo.name := by
      simp only [List.map_cons, List.nodup_cons] at hnd
      exact hnd.1
    have hpred : rest.filter (fun j =>
          ((fetch_submodule_readme http st1 j.path j.name).2).isSome) =
        rest.filter (fun j =>
          ((fetch_submodule_readme http st j.path j.name).2).isSome) := by
      apply List.filter_congr
      intro j hj
      rw [fetch_submodule_readme_snd http st1 st hfld.1 hfld.2 j.path j.name]
    cases hf : (fetch_submodule_readme http st i.path i.name).2 with
    | none =>
      simp only [hf] at hsnd
      rw [hsnd]
      rw [ih st1 acc hnd' (fun j hj => hfresh j (List.mem_cons_of_mem _ hj)), hpred]
      simp [hf]
    | some pr =>
      rcases pr with ⟨fname, content⟩
      simp only [hf] at hsnd
      have hfresh1 : ∀ j ∈ rest, j.name ∉ acc1.map Prod.fst := by
        intro j hj
        rw [hsnd, mem_keys_dictInsert]
        push_neg
        refine ⟨hfresh j (List.mem_cons_of_mem _ hj), ?_⟩
        intro heq
        exact hiname (heq ▸ List.mem_map_of_mem SubInfo.name hj)
      rw [ih st1 acc1 hnd' hfresh1, hpred]
      have hlen1 : acc1.length = acc.length + 1 := by
        rw [hsnd]
        exact length_dictInsert_not_mem acc i.name _ (hfresh i (List.mem_cons_self _ _))
      rw [hlen1]
      simp [hf]
      omega

/-- Claim C7: for a registry-mode run that discovered `N` submodules (with
pairwise-distinct names) in the Modules section, if the README fetch fails
for exactly one of them and succeeds for the rest, the run still completes
and assembles a result whose submodules mapping has exactly `N - 1`
entries: the failed submodule is skipped, not fatal. -/
theorem C7_one_failed_submodule :
    ∀ (http : Http) (st : Fetcher) (infos : List SubInfo)
      (fs : Fs) (dN : String → List String) (bd mn content : String),
      (infos.map SubInfo.name).Nodup →
      (infos.filter (fun i =>
          !((fetch_submodule_readme http st i.path i.name).2).isSome)).length = 1 →
      extract_section content "Submodules" = "" →
      ∃ d, dictLookup (ReadmeParser.parse fs dN bd mn content
              (processSubInfos http st infos).2) mn = some d ∧
           (subsOf d).length = infos.length - 1 := by
  intro http st infos fs dN bd mn content hnd hone hsub
  have hcount : (processSubInfos http st infos).2.length =
      (infos.filter (fun i =>
        ((fetch_submodule_readme http st i.path i.name).2).isSome)).length := by
    have h := processSubInfos_count http infos st [] hnd (by intro i hi; simp)
    simpa [processSubInfos] using h
  have hsplit := length_filter_not
    (fun i => ((fetch_submodule_readme http st i.path i.name).2).isSome) infos
  rw [hone] at hsplit
  have hlen : (processSubInfos http st infos).2.length = infos.length - 1 := by
    rw [hcount]
    omega
  obtain ⟨doc, hres, -, -, -, -, -, hsubs⟩ :=
    parse_result_eq fs dN bd mn content (processSubInfos http st infos).2
  refine ⟨doc, by rw [hres]; simp [dictLookup], ?_⟩
  rw [subsOf, hsubs, hsub]
  simp only [bne_self_eq_false, Bool.false_eq_true, if_false]
  by_cases hnil : (processSubInfos http st infos).2 = []
  · rw [if_neg (by simp [hnil])]
    have h0 : infos.length - 1 = 0 := by
      rw [← hlen, hnil]
      rfl
    rw [h0]
    rfl
  · rw [if_pos hnil]
    simpa using hlen

/-- Witness for C7: three discovered submodules, the middle fetch fails,
the result keeps two entries. -/
theorem C7_witness :
    ∃ d, dictLookup (ReadmeParser.parse noFs noNames "/w" "x" ""
            (processSubInfos httpC7 fetcherC5 infosC7).2) "x" = some d ∧
         (subsOf d).length = infosC7.length - 1 := by
  have h := C7_one_failed_submodule httpC7 fetcherC5 infosC7 noFs noNames "/w" "x" ""
    (by decide) (by decide) (by decide)
  exact h

/-! ## Claim C9: description fields are always empty -/

theorem dictLookup_mem {α : Type} (d : Dict α) (k : String) (v : α)
    (h : dictLookup d k = some v) : (k, v) ∈ d := by
  induction d with
  | nil => cases h
  | cons p rest ih =>
    obtain ⟨pk, pv⟩ := p
    unfold dictLookup at h
    by_cases hk : pk = k
    · rw [if_pos hk] at h
      rw [← hk]
      rw [← Option.some.inj h]
      exact List.mem_cons_self _ _
    · rw [if_neg hk] at h
      exact List.mem_cons_of_mem _ (ih h)

theorem processOneSubmodule_desc (fs : Fs) (bd : String) (subs : Dict SubmoduleDoc) (nm : String)
    (h : ∀ q ∈ subs, q.2.description = "") :
    ∀ q ∈ processOneSubmodule fs bd subs nm, q.2.description = "" := by
  intro q hq
  cases hfs : firstSome fs
      [pyPathJoin (pyPathJoin (pyPathJoin bd "modules") nm) "README.md",
       pyPathJoin (pyPathJoin bd nm) "README.md",
       pyPathJoin (pyPathJoin (pyPathJoin bd "modules") nm) "README.md"] with
  | none =>
    simp only [processOneSubmodule, hfs] at hq
    exact h q hq
  | some content =>
    simp only [processOneSubmodule, hfs] at hq
    rcases mem_dictInsert _ _ _ _ hq with hin | hqe
    · exact h q hin
    · rw [hqe]

theorem processSubmodules_fold_desc (fs : Fs) (bd : String) (names : List String) :
    ∀ subs : Dict SubmoduleDoc, (∀ q ∈ subs, q.2.description = "") →
      ∀ q ∈ names.foldl (processOneSubmodule fs bd) subs, q.2.description = "" := by
  induction names with
  | nil => intro subs h; exact h
  | cons nm rest ih =>
    intro subs h
    simp only [List.foldl_cons]
    exact ih _ (processOneSubmodule_desc fs bd subs nm h)

theorem parse_desc (fs : Fs) (dN : String → List String) (bd mn content : String)
    (subs0 : Dict SubmoduleDoc) (h : ∀ q ∈ subs0, q.2.description = "") :
    ∀ p ∈ ReadmeParser.parse fs dN bd mn content subs0,
      p.2.description = "" ∧ ∀ q ∈ subsOf p.2, q.2.description = "" := by
  obtain ⟨doc, hres, -, hdesc, -, -, -, hsubs⟩ := parse_result_eq fs dN bd mn content subs0
  intro p hp
  rw [hres] at hp
  rcases List.mem_singleton.mp hp with rfl
  refine ⟨hdesc, ?_⟩
  intro q hq
  rw [subsOf, hsubs] at hq
  set S := (if (extract_section content "Submodules" != "") = true then
      (dN (extract_section content "Submodules")).foldl (processOneSubmodule fs bd) subs0
    else subs0) with hS
  have hSdesc : ∀ q ∈ S, q.2.description = "" := by
    rw [hS]
    by_cases hms : (extract_section content "Submodules" != "") = true
    · rw [if_pos hms]
      exact processSubmodules_fold_desc fs bd _ subs0 h
    · rw [if_neg hms]
      exact h
  by_cases hnil : S = []
  · rw [if_neg (by simp [hnil])] at hq
    simp at hq
  · rw [if_pos hnil] at hq
    simp only [Option.getD_some] at hq
    exact hSdesc q hq

theorem processSubInfos_desc (http : Http) (infos : List SubInfo) :
    ∀ (st : Fetcher) (acc : Dict SubmoduleDoc),
      (∀ i ∈ infos, i.description = "") →
      (∀ q ∈ acc, q.2.description = "") →
      ∀ q ∈ (infos.foldl (subStep http) (st, acc)).2, q.2.description = "" := by
  induction infos with
  | nil => intro st acc _ h; exact h
  | cons i rest ih =>
    intro st acc hinfos h
    simp only [List.foldl_cons]
    have hsnd := subStep_snd http (st, acc) i
    rcases hstep : subStep http (st, acc) i with ⟨st1, acc1⟩
    rw [hstep] at hsnd
    simp only at hsnd
    have hacc1 : ∀ q ∈ acc1, q.2.description = "" := by
      intro q hq
      cases hf : (fetch_submodule_readme http st i.path i.name).2 with
      | none =>
        simp only [hf] at hsnd
        rw [hsnd] at hq
        exact h q hq
      | some pr =>
        rcases pr with ⟨fname, content⟩
        simp only [hf] at hsnd
        rw [hsnd] at hq
        rcases mem_dictInsert _ _ _ _ hq with hin | hqe
        · exact h q hin
        · rw [hqe]
          exact hinfos i (List.mem_cons_self _ _)
    exact ih st1 acc1 (fun j hj => hinfos j (List.mem_cons_of_mem _ hj)) hacc1

theorem submoduleInfosOf_desc (triples : List (String × String × String)) :
    ∀ i ∈ submoduleInfosOf triples, i.description = "" := by
  intro i hi
  obtain ⟨t, ht, hrfl⟩ := List.mem_map.mp hi
  rw [← hrfl]

/-- Claim C9 (implicit): in every result assembled by the README
extractor, the `description` field of the top-level module object and of
every submodule object equals the empty string, regardless of the README
content — no README text is ever copied into a description field, in
local parses and in full registry-mode runs alike. -/
theorem C9_descriptions_empty :
    (∀ (fs : Fs) (dN : String → List String) (bd mn content : String)
        (subs0 : Dict SubmoduleDoc),
        (∀ q ∈ subs0, q.2.description = "") →
        ∀ p ∈ ReadmeParser.parse fs dN bd mn content subs0,
          p.2.description = "" ∧ ∀ q ∈ subsOf p.2, q.2.description = "")
    ∧ (∀ (regApi : RegApi) (http : Http) (fs : Fs)
        (dM : String → List (String × String × String)) (dN : String → List String)
        (sd mn : String) (out : Dict ModuleDoc),
        (registryMain regApi http fs dM dN sd mn).output = some out →
        ∀ p ∈ out, p.2.description = "" ∧ ∀ q ∈ subsOf p.2, q.2.description = "") := by
  refine ⟨parse_desc, ?_⟩
  intro regApi http fs dM dN sd mn out hout
  unfold registryMain at hout
  cases hpm : parseModuleName mn with
  | none =>
    simp only [hpm] at hout
    cases hout
  | some nsv =>
    simp only [hpm] at hout
    rcases hfsv : fetch_and_save_readme regApi http (initFetcher nsv.1 nsv.2.1 nsv.2.2) with
      ⟨st1, r⟩
    cases r with
    | none =>
      simp [hfsv] at hout
    | some pr =>
      rcases pr with ⟨fname, content⟩
      simp only [hfsv] at hout
      obtain rfl := Option.some.inj hout
      have hX : ∀ i ∈ (if (extract_section content "Modules" != "") = true then
          submoduleInfosOf (dM (extract_section content "Modules")) else []),
          i.description = "" := by
        by_cases hms : (extract_section content "Modules" != "") = true
        · rw [if_pos hms]
          exact submoduleInfosOf_desc _
        · rw [if_neg hms]
          intro i hi
          cases hi
      exact parse_desc _ _ _ _ _ _
        (processSubInfos_desc http _ st1 [] hX (by intro q hq; cases hq))

/-- Witness for C9 on the concrete `contentC3` parse. -/
theorem C9_witness :
    ∃ d, dictLookup resultC3 "m" = some d ∧ d.description = "" := by
  cases hd : dictLookup resultC3 "m" with
  | none => exact absurd hd (by decide)
  | some d =>
    have hmem : ("m", d) ∈ resultC3 := dictLookup_mem _ _ _ hd
    exact ⟨d, rfl, (C9_descriptions_empty.1 noFs noNames "" "m" contentC3 []
      (by intro q hq; cases hq) ("m", d) hmem).1⟩
